import Mathlib

/-!
Verification of the request-conditioning and dispatch pipeline of an API
gateway written in Rust.  The Rust sources are embedded shallowly: Rust
`String` becomes Lean `String` (so `.len()` becomes `String.utf8ByteSize`
and `.chars().count()` becomes `String.length`), `serde_json::Value`
becomes the inductive `Json` below, `Vec` becomes `List`, `Option` stays
`Option`, and every function is translated into an executable Lean
definition keeping the source's name.
-/

set_option maxHeartbeats 1000000
set_option maxRecDepth 10000

/-- Shallow model of `serde_json::Value`.  Numbers are modelled as `Int`
(the claims under study never inspect numeric values, only string
payloads and structure). -/
inductive Json where
  | null : Json
  | bool (b : Bool) : Json
  | num (n : Int) : Json
  | str (s : String) : Json
  | arr (elems : List Json) : Json
  | obj (fields : List (String × Json)) : Json
deriving Inhabited

/-- Lookup in a JSON object's field list, modelling `serde_json::Map::get`
(serde's map has unique keys; we model it as an association list and look
up the first binding). -/
def jget (fields : List (String × Json)) (key : String) : Option Json :=
  (fields.find? (fun p => p.fst == key)).map (·.snd)

/-- UTF-8 byte count of a list of characters (matches
`String.utf8ByteSize` on the packed string). -/
def utf8Len (l : List Char) : Nat :=
  l.foldr (fun c n => c.utf8Size + n) 0

/-- Escape of one character inside a JSON string literal, following
`serde_json`'s compact serializer: `"` and `\` are escaped, the common
control characters get their short forms, other control characters get a
`\u00XX` form, and everything else is emitted raw. -/
def escapeJsonChar (c : Char) : List Char :=
  if c = '"' then ['\\', '"']
  else if c = '\\' then ['\\', '\\']
  else if c = '\n' then ['\\', 'n']
  else if c = '\r' then ['\\', 'r']
  else if c = '\t' then ['\\', 't']
  else if c = '\x08' then ['\\', 'b']
  else if c = '\x0c' then ['\\', 'f']
  else if c.toNat < 0x20 then
    ['\\', 'u', '0', '0', (Nat.digitChar (c.toNat / 16)), (Nat.digitChar (c.toNat % 16))]
  else [c]

/-- Serialization of a string as a JSON string literal (with quotes). -/
def escapeJsonString (s : String) : String :=
  ⟨'"' :: (s.data.flatMap escapeJsonChar) ++ ['"']⟩

mutual

/-- Compact JSON serialization, modelling `serde_json::to_string` on a
`Value`.  Object fields are emitted in the order of the association
list; serde's `BTreeMap` emits them sorted, which permutes fields but
never changes the serialized byte length, the only quantity the claims
depend on. -/
def Json.serialize : Json → String
  | .null => "null"
  | .bool b => if b then "true" else "false"
  | .num n => toString n
  | .str s => escapeJsonString s
  | .arr elems => "[" ++ Json.serializeArrItems elems ++ "]"
  | .obj fields => "\x7b" ++ Json.serializeObjItems fields ++ "\x7d"

/-- Comma-separated serialization of array elements. -/
def Json.serializeArrItems : List Json → String
  | [] => ""
  | [x] => Json.serialize x
  | x :: y :: rest => Json.serialize x ++ "," ++ Json.serializeArrItems (y :: rest)

/-- Comma-separated serialization of object fields. -/
def Json.serializeObjItems : List (String × Json) → String
  | [] => ""
  | [(k, v)] => escapeJsonString k ++ ":" ++ Json.serialize v
  | (k, v) :: y :: rest =>
      escapeJsonString k ++ ":" ++ Json.serialize v ++ "," ++ Json.serializeObjItems (y :: rest)

end

/-! ## src/anthropic/truncation.rs -/

/-- Truncation classification (`TruncationType` in
`src/anthropic/truncation.rs`).  `missingFields` is marked
`#[allow(dead_code)]` in the source. -/
inductive TruncationType where
  | emptyInput : TruncationType
  | invalidJson : TruncationType
  | missingFields : TruncationType
  | incompleteString : TruncationType
deriving DecidableEq, Repr

/-- Detection result (`TruncationInfo` in `src/anthropic/truncation.rs`). -/
structure TruncationInfo where
  truncation_type : TruncationType
  tool_name : String
  tool_use_id : String
  raw_input : String
deriving DecidableEq, Repr

/-- Whitespace predicate used by Rust's `str::trim`.  Rust trims by
`char::is_whitespace` (Unicode `White_Space`); the ASCII portion modelled
here is what every input in this code path can contain (the exotic
Unicode space code points are elided). -/
def isRustWhitespace (c : Char) : Bool :=
  c = ' ' || c = '\t' || c = '\n' || c = '\r' || c = '\x0b' || c = '\x0c'

/-- Model of Rust `str::trim`: drop leading and trailing whitespace. -/
def rustTrim (s : String) : String :=
  ⟨((s.data.dropWhile isRustWhitespace).reverse.dropWhile isRustWhitespace).reverse⟩

/-- Model of Rust `str::trim_end` on a character list. -/
def rustTrimEnd (l : List Char) : List Char :=
  (l.reverse.dropWhile isRustWhitespace).reverse

/-- Scan for an unclosed string literal (`has_unclosed_string`):
fold over the characters tracking `in_string` and `escape_next`. -/
def hasUnclosedStringGo : List Char → Bool → Bool → Bool
  | [], inString, _ => inString
  | c :: rest, inString, escapeNext =>
      if escapeNext then hasUnclosedStringGo rest inString false
      else if c = '\\' && inString then hasUnclosedStringGo rest inString true
      else if c = '"' then hasUnclosedStringGo rest (!inString) false
      else hasUnclosedStringGo rest inString false

/-- Model of `has_unclosed_string` in `src/anthropic/truncation.rs`. -/
def has_unclosed_string (s : String) : Bool :=
  hasUnclosedStringGo s.data false false

/-- Bracket-balance scanner state machine (`are_brackets_balanced`):
a stack of open brackets, plus `in_string` / `escape_next` flags. -/
def bracketsBalancedGo : List Char → List Char → Bool → Bool → Bool
  | [], stack, _, _ => stack.isEmpty
  | c :: rest, stack, inString, escapeNext =>
      if escapeNext then bracketsBalancedGo rest stack inString false
      else if inString then
        if c = '\\' then bracketsBalancedGo rest stack inString true
        else if c = '"' then bracketsBalancedGo rest stack false false
        else bracketsBalancedGo rest stack inString false
      else if c = '"' then bracketsBalancedGo rest stack true false
      else if c = '\x7b' || c = '[' then bracketsBalancedGo rest (c :: stack) inString false
      else if c = '\x7d' then
        match stack with
        | '\x7b' :: stack1 => bracketsBalancedGo rest stack1 inString false
        | _ => false
      else if c = ']' then
        match stack with
        | '[' :: stack1 => bracketsBalancedGo rest stack1 inString false
        | _ => false
      else bracketsBalancedGo rest stack inString false

/-- Model of `are_brackets_balanced` in `src/anthropic/truncation.rs`. -/
def are_brackets_balanced (s : String) : Bool :=
  bracketsBalancedGo s.data [] false false

/-- Model of `detect_truncation` in `src/anthropic/truncation.rs`
(lines 52–90): empty trimmed input gives `EmptyInput`, an unclosed
string gives `IncompleteString`, unbalanced brackets give `InvalidJson`,
and otherwise the function returns `None`. -/
def detect_truncation (tool_name tool_use_id raw_input : String) :
    Option TruncationInfo :=
  let trimmed := rustTrim raw_input
  if trimmed.isEmpty then
    some ⟨.emptyInput, tool_name, tool_use_id, raw_input⟩
  else if has_unclosed_string trimmed then
    some ⟨.incompleteString, tool_name, tool_use_id, raw_input⟩
  else if !are_brackets_balanced trimmed then
    some ⟨.invalidJson, tool_name, tool_use_id, raw_input⟩
  else
    none

/-! ## Data model

The conversation data model lives in `src/kiro/model/requests/*`, which is
not part of the provided sources; the structures below are modelled from
the spec's §3 data model and from the field accesses in
`src/anthropic/compressor.rs` / `src/anthropic/handlers.rs`.  Wrapper
structs that carry a single field (`HistoryUserMessage`,
`HistoryAssistantMessage`, `CurrentMessage`) are flattened away. -/

/-- Modelled from the spec: `ToolUseEntry` (an assistant's tool call),
`src/kiro/model/requests/tool.rs` is absent from the sources. -/
structure ToolUseEntry where
  tool_use_id : String
  name : String
  input : Json
deriving Inhabited

/-- Modelled from the spec: `ToolResult` (the user-side reply to a tool
call); `content` is a `Vec<serde_json::Map<String, Value>>` in the
source, modelled as a list of field lists. -/
structure ToolResult where
  tool_use_id : String
  content : List (List (String × Json))
deriving Inhabited

/-- Modelled from the spec: `ToolSpecification` (name, description,
input schema) as accessed by `src/anthropic/tool_compression.rs`. -/
structure ToolSpecification where
  name : String
  description : String
  input_schema : Json
deriving Inhabited

/-- Modelled from the spec: a declared tool wraps its specification. -/
structure Tool where
  tool_specification : ToolSpecification
deriving Inhabited

/-- Modelled from the spec: an image carried by a user message;
`source.bytes` (its base64 payload) is the only field the handlers read. -/
structure Image where
  bytes : String
deriving Inhabited

/-- Modelled from the spec: the context of a user message, holding its
tool results and declared tools. -/
structure UserInputMessageContext where
  tool_results : List ToolResult
  tools : List Tool
deriving Inhabited

/-- Modelled from the spec: a user message (content, context, images). -/
structure UserInputMessage where
  content : String
  user_input_message_context : UserInputMessageContext
  images : List Image
deriving Inhabited

/-- Modelled from the spec: an assistant message; `tool_uses` is an
`Option<Vec<ToolUseEntry>>` in the source (absent when empty). -/
structure AssistantMessage where
  content : String
  tool_uses : Option (List ToolUseEntry)
deriving Inhabited

/-- Modelled from the spec: one history item, tagged user or assistant. -/
inductive Message where
  | user (u : UserInputMessage) : Message
  | assistant (a : AssistantMessage) : Message
deriving Inhabited

/-- Modelled from the spec: the root payload sent upstream. -/
structure ConversationState where
  conversation_id : String
  history : List Message
  current_message : UserInputMessage
deriving Inhabited

/-- Compression statistics (`CompressionStats` in
`src/anthropic/compressor.rs`). -/
structure CompressionStats where
  whitespace_saved : Nat := 0
  thinking_saved : Nat := 0
  tool_result_saved : Nat := 0
  tool_use_input_saved : Nat := 0
  history_turns_removed : Nat := 0
  history_bytes_saved : Nat := 0
deriving DecidableEq, Repr, Inhabited

/-- Compression configuration (`CompressionConfig` in
`src/model/config.rs`; the image-sizing knobs are carried but unused by
the functions under study). -/
structure CompressionConfig where
  enabled : Bool
  whitespace_compression : Bool
  thinking_strategy : String
  tool_result_max_chars : Nat
  tool_result_head_lines : Nat
  tool_result_tail_lines : Nat
  tool_use_input_max_chars : Nat
  tool_description_max_chars : Nat
  max_history_turns : Nat
  max_history_chars : Nat
  image_max_long_edge : Nat
  image_max_pixels_single : Nat
  image_max_pixels_multi : Nat
  image_multi_threshold : Nat
  max_request_body_bytes : Nat
deriving Inhabited

/-- Default compression configuration (`impl Default for
CompressionConfig` in `src/model/config.rs`). -/
def CompressionConfig.default : CompressionConfig :=
  { enabled := true
    whitespace_compression := true
    thinking_strategy := "discard"
    tool_result_max_chars := 8000
    tool_result_head_lines := 80
    tool_result_tail_lines := 40
    tool_use_input_max_chars := 6000
    tool_description_max_chars := 4000
    max_history_turns := 80
    max_history_chars := 400000
    image_max_long_edge := 1568
    image_max_pixels_single := 1150000
    image_max_pixels_multi := 4000000
    image_multi_threshold := 20
    max_request_body_bytes := 400000 }

/-! ## src/anthropic/compressor.rs — whitespace pass -/

/-- Fold step of `compress_whitespace`: Rust keeps a `result` buffer and a
`consecutive_empty` counter while iterating `text.split('\n')`. -/
def compressWhitespaceStep (acc : List Char × Nat) (line : List Char) :
    List Char × Nat :=
  let trimmedEnd := rustTrimEnd line
  if trimmedEnd.isEmpty then
    let consec := acc.2 + 1
    if consec ≤ 2 && !acc.1.isEmpty then (acc.1 ++ ['\n'], consec)
    else (acc.1, consec)
  else
    let withSep := if acc.1.isEmpty then acc.1 else acc.1 ++ ['\n']
    (withSep ++ trimmedEnd, 0)

/-- Model of `compress_whitespace` (lines 100–122): collapse runs of
blank lines to at most two and strip trailing whitespace per line. -/
def compress_whitespace (text : String) : String :=
  ⟨((text.data.splitOn '\n').foldl compressWhitespaceStep ([], 0)).1⟩

/-- Model of `compress_string_field` (lines 148–161): skip the " "
placeholder, replace the field only when compression strictly shrinks
its byte length, and return (new field, bytes saved). -/
def compress_string_field (field : String) : String × Nat :=
  if field = " " then (field, 0)
  else
    let compressed := compress_whitespace field
    if compressed.utf8ByteSize < field.utf8ByteSize then
      (compressed, field.utf8ByteSize - compressed.utf8ByteSize)
    else (field, 0)

/-- Whitespace compression of one history message. -/
def whitespaceMsg : Message → Message × Nat
  | .user u =>
      let (c, s) := compress_string_field u.content
      (.user { u with content := c }, s)
  | .assistant a =>
      let (c, s) := compress_string_field a.content
      (.assistant { a with content := c }, s)

/-- Model of `compress_whitespace_pass` (lines 125–142): compress every
content field in history and the current message, summing bytes saved. -/
def compress_whitespace_pass (state : ConversationState) :
    ConversationState × Nat :=
  let mapped := state.history.map whitespaceMsg
  let (cc, cs) := compress_string_field state.current_message.content
  ({ state with
      history := mapped.map Prod.fst
      current_message := { state.current_message with content := cc } },
    (mapped.map Prod.snd).sum + cs)

/-! ## src/anthropic/compressor.rs — thinking pass -/

/-- First index at which `pat` occurs as a contiguous sublist of `text`,
modelling Rust `str::find` (the tags searched for are ASCII, so byte
positions and character positions can be identified on slices). -/
def findSublist (pat : List Char) : List Char → Option Nat
  | [] => if pat.isEmpty then some 0 else none
  | c :: rest =>
      if pat.isPrefixOf (c :: rest) then some 0
      else (findSublist pat rest).map (· + 1)

theorem findSublist_some_prefix {pat l : List Char} {i : Nat}
    (h : findSublist pat l = some i) : pat <+: l.drop i := by
  induction l generalizing i with
  | nil =>
      by_cases hp : pat.isEmpty
      · simp only [findSublist, hp, if_true, Option.some.injEq] at h
        subst h
        cases pat with
        | nil => simp
        | cons a as => simp [List.isEmpty] at hp
      · simp [findSublist, hp] at h
  | cons c rest ih =>
      by_cases hp : pat.isPrefixOf (c :: rest)
      · simp only [findSublist, hp, if_true, Option.some.injEq] at h
        subst h
        simpa using List.isPrefixOf_iff_prefix.mp hp
      · simp only [findSublist] at h
        rw [if_neg hp] at h
        cases hf : findSublist pat rest with
        | none => rw [hf] at h; simp at h
        | some j =>
            rw [hf, Option.map_some'] at h
            simp only [Option.some.injEq] at h
            subst h
            simpa using ih hf

theorem findSublist_some_le {pat l : List Char} {i : Nat}
    (h : findSublist pat l = some i) (hpat : pat ≠ []) :
    i + pat.length ≤ l.length := by
  have hpfx := findSublist_some_prefix h
  have hl : 0 < pat.length := List.length_pos.mpr hpat
  have hle : pat.length ≤ l.length - i := by simpa using hpfx.length_le
  omega

/-! ## src/anthropic/compressor.rs — thinking pass -/

/-- Opening tag searched for by the thinking passes. -/
def openTag : List Char := "<thinking>".data

/-- Closing tag searched for by the thinking passes. -/
def closeTag : List Char := "</thinking>".data

/-- Model of `remove_thinking_blocks` (lines 190–204): repeatedly find
`<thinking>`, drop up to the matching `</thinking>` (or the rest of the
string when no closing tag follows). -/
def remove_thinking_blocks (l : List Char) : List Char :=
  match hf : findSublist openTag l with
  | none => l
  | some start =>
      let before := l.take start
      match findSublist closeTag (l.drop start) with
      | none => before
      | some rel =>
          before ++ remove_thinking_blocks (l.drop (start + rel + closeTag.length))
termination_by l.length
decreasing_by
  have h1 := findSublist_some_le hf (by decide)
  have h10 : openTag.length = 10 := rfl
  have h11 : closeTag.length = 11 := rfl
  simp only [List.length_drop]
  omega

/-- Model of `safe_char_truncate` (lines 619–624): keep the first
`max_chars` Unicode characters.  The Rust code slices at the byte index
of the `max_chars`-th character, which is exactly the character-level
prefix; when the string is shorter it is returned unchanged. -/
def safe_char_truncate (text : String) (max_chars : Nat) : String :=
  if text.length ≤ max_chars then text else ⟨text.data.take max_chars⟩

/-- Model of `truncate_thinking_blocks` (lines 207–235): keep the first
`max_chars` characters of each `<thinking>` region, appending
`...[truncated]` when content was dropped (the byte-length comparison of
the source) and restoring the closing tag; without a closing tag the rest
of the string is the region and the marker is always appended. -/
def truncate_thinking_blocks (l : List Char) (maxChars : Nat) : List Char :=
  match hf : findSublist openTag l with
  | none => l
  | some start =>
      let before := l.take start
      let afterTag := l.drop (start + openTag.length)
      match findSublist closeTag afterTag with
      | some e =>
          let thinkingContent := afterTag.take e
          let truncated := thinkingContent.take maxChars
          let marker :=
            if utf8Len truncated < utf8Len thinkingContent then "...[truncated]".data
            else ([] : List Char)
          before ++ openTag ++ truncated ++ marker ++ closeTag ++
            truncate_thinking_blocks (afterTag.drop (e + closeTag.length)) maxChars
      | none =>
          before ++ openTag ++ afterTag.take maxChars ++ "...[truncated]".data ++ closeTag
termination_by l.length
decreasing_by
  have h1 := findSublist_some_le hf (by decide)
  have h10 : openTag.length = 10 := rfl
  have h11 : closeTag.length = 11 := rfl
  simp only [List.length_drop]
  omega

/-- Strategy dispatch inside `compress_thinking_pass` (lines 174–178):
`discard` removes the blocks, `truncate` keeps 500 characters per block,
anything else leaves the content alone. -/
def thinkingTransform (strategy : String) (content : String) : String :=
  if strategy = "discard" then ⟨remove_thinking_blocks content.data⟩
  else if strategy = "truncate" then ⟨truncate_thinking_blocks content.data 500⟩
  else content

/-- Thinking compression of one history message (only assistants are
touched; `saved` counts a byte decrease of the content). -/
def thinkingMsg (strategy : String) : Message → Message × Nat
  | .assistant a =>
      let c := thinkingTransform strategy a.content
      (.assistant { a with content := c },
        if c.utf8ByteSize < a.content.utf8ByteSize then
          a.content.utf8ByteSize - c.utf8ByteSize
        else 0)
  | m => (m, 0)

/-- Model of `compress_thinking_pass` (lines 166–187). -/
def compress_thinking_pass (state : ConversationState) (strategy : String) :
    ConversationState × Nat :=
  let mapped := state.history.map (thinkingMsg strategy)
  ({ state with history := mapped.map Prod.fst }, (mapped.map Prod.snd).sum)

/-! ## src/anthropic/compressor.rs — tool_result smart truncation -/

/-- Model of Rust `str::lines`: split on `'\n'`, drop the final empty
segment produced by a trailing newline, and strip a trailing `'\r'` from
each line. -/
def rustLines (l : List Char) : List (List Char) :=
  if l.isEmpty then []
  else
    let parts := l.splitOn '\n'
    let parts := if l.getLast? = some '\n' then parts.dropLast else parts
    parts.map (fun line => if line.getLast? = some '\r' then line.dropLast else line)

/-- Tail slice used by the character-budget branch of
`smart_truncate_by_lines`: `char_indices().rev().nth(tail_chars-1)` finds
the byte start of the `tail_chars`-th character from the end (when it
exists, otherwise `unwrap_or(0)` keeps the whole text). -/
def tailSliceChars (l : List Char) (tailChars : Nat) : List Char :=
  let k := tailChars - 1
  if k < l.length then l.drop (l.length - (k + 1)) else l

/-- Model of `smart_truncate_by_lines` (lines 240–290).  Under the
`head+tail` line budget a character-budget split with an omission marker
is produced (this branch has no final hard cap); otherwise head and tail
lines are kept and a final `safe_char_truncate` enforces `max_chars`. -/
def smart_truncate_by_lines (text : String)
    (max_chars head_lines tail_lines : Nat) : String × Nat :=
  let char_count := text.length
  if char_count ≤ max_chars then (text, 0)
  else
    let lines := rustLines text.data
    let total_lines := lines.length
    if total_lines ≤ head_lines + tail_lines then
      let half := max_chars / 2
      let head := safe_char_truncate text half
      let tail_chars := max_chars - head.length
      let tail : String := ⟨tailSliceChars text.data tail_chars⟩
      let omitted := char_count - (head.length + tail.length)
      let result :=
        head ++ "\n... [" ++ toString omitted ++ " chars omitted] ...\n" ++ tail
      (result, text.utf8ByteSize - result.utf8ByteSize)
    else
      let head_part : String := ⟨List.intercalate ['\n'] (lines.take head_lines)⟩
      let tail_part : String :=
        ⟨List.intercalate ['\n'] (lines.drop (total_lines - tail_lines))⟩
      let omitted_lines := total_lines - head_lines - tail_lines
      let omitted_chars := char_count - (head_part.length + tail_part.length)
      let assembled :=
        head_part ++ "\n... [" ++ toString omitted_lines ++ " lines omitted (" ++
          toString omitted_chars ++ " chars)] ...\n" ++ tail_part
      let result :=
        if assembled.length > max_chars then safe_char_truncate assembled max_chars
        else assembled
      (result, text.utf8ByteSize - result.utf8ByteSize)

/-- Replacement of the first binding of `key` in a field list, modelling
the in-place mutation through `serde_json::Map::get_mut`. -/
def updateFirst (key : String) (v : Json) : List (String × Json) → List (String × Json)
  | [] => []
  | (k, w) :: rest =>
      if k == key then (k, v) :: rest else (k, w) :: updateFirst key v rest

/-- Truncation of one `tool_result.content` map (body of the loop in
`truncate_tool_result_content`, lines 332–351): when the `"text"` field
is a string longer than `max_chars`, it is smart-truncated. -/
def truncateToolResultMap (max_chars head_lines tail_lines : Nat)
    (m : List (String × Json)) : List (String × Json) × Nat :=
  match jget m "text" with
  | some (.str text) =>
      if text.length > max_chars then
        let (truncated, s) := smart_truncate_by_lines text max_chars head_lines tail_lines
        (updateFirst "text" (.str truncated) m, s)
      else (m, 0)
  | _ => (m, 0)

/-- Model of `truncate_tool_result_content` (lines 332–351). -/
def truncate_tool_result_content
    (content : List (List (String × Json))) (max_chars head_lines tail_lines : Nat) :
    List (List (String × Json)) × Nat :=
  let mapped := content.map (truncateToolResultMap max_chars head_lines tail_lines)
  (mapped.map Prod.fst, (mapped.map Prod.snd).sum)

/-- Tool_result truncation of one history message (only user messages
carry tool results). -/
def toolResultsMsg (max_chars head_lines tail_lines : Nat) : Message → Message × Nat
  | .user u =>
      let mapped := u.user_input_message_context.tool_results.map fun tr =>
        let (c, s) := truncate_tool_result_content tr.content max_chars head_lines tail_lines
        (({ tr with content := c } : ToolResult), s)
      (.user { u with user_input_message_context :=
          { u.user_input_message_context with tool_results := mapped.map Prod.fst } },
        (mapped.map Prod.snd).sum)
  | m => (m, 0)

/-- Model of `compress_tool_results_pass` (lines 293–329). -/
def compress_tool_results_pass (state : ConversationState)
    (max_chars head_lines tail_lines : Nat) : ConversationState × Nat :=
  let mapped := state.history.map (toolResultsMsg max_chars head_lines tail_lines)
  let curMapped := state.current_message.user_input_message_context.tool_results.map fun tr =>
    let (c, s) := truncate_tool_result_content tr.content max_chars head_lines tail_lines
    (({ tr with content := c } : ToolResult), s)
  ({ state with
      history := mapped.map Prod.fst
      current_message := { state.current_message with user_input_message_context :=
        { state.current_message.user_input_message_context with
            tool_results := curMapped.map Prod.fst } } },
    (mapped.map Prod.snd).sum + (curMapped.map Prod.snd).sum)

/-! ## src/anthropic/compressor.rs — tool_use input truncation -/

mutual

/-- Model of `truncate_json_value_strings` (lines 376–418): strings
longer than `max_chars` characters are cut to that many characters and
the `...[truncated N chars]` marker is appended only when the marked form
is strictly shorter in bytes than the original; objects and arrays are
walked recursively; other scalars are untouched. -/
def truncate_json_value_strings : Json → Nat → Json × Nat
  | .str s, max_chars =>
      if s.length > max_chars then
        let original_len := s.utf8ByteSize
        let truncated := safe_char_truncate s max_chars
        let omitted_chars := s.length - max_chars
        let with_marker := truncated ++ "...[truncated " ++ toString omitted_chars ++ " chars]"
        let new_value := if with_marker.utf8ByteSize < original_len then with_marker
          else truncated
        (.str new_value, original_len - new_value.utf8ByteSize)
      else (.str s, 0)
  | .obj fields, max_chars =>
      let res := truncateJsonFields fields max_chars
      (.obj res.1, res.2)
  | .arr elems, max_chars =>
      let res := truncateJsonArr elems max_chars
      (.arr res.1, res.2)
  | v, _ => (v, 0)

/-- Recursive walk over object fields for `truncate_json_value_strings`. -/
def truncateJsonFields : List (String × Json) → Nat → List (String × Json) × Nat
  | [], _ => ([], 0)
  | (k, v) :: rest, max_chars =>
      let hd := truncate_json_value_strings v max_chars
      let tl := truncateJsonFields rest max_chars
      ((k, hd.1) :: tl.1, hd.2 + tl.2)

/-- Recursive walk over array elements for `truncate_json_value_strings`. -/
def truncateJsonArr : List Json → Nat → List Json × Nat
  | [], _ => ([], 0)
  | v :: rest, max_chars =>
      let hd := truncate_json_value_strings v max_chars
      let tl := truncateJsonArr rest max_chars
      (hd.1 :: tl.1, hd.2 + tl.2)

end

/-- One tool_use of the pass (lines 363–369): the input is re-serialized
and only walked when the serialization has more than `max_chars`
characters. -/
def truncateToolUse (max_chars : Nat) (tu : ToolUseEntry) : ToolUseEntry × Nat :=
  let serialized := Json.serialize tu.input
  if serialized.length > max_chars then
    let res := truncate_json_value_strings tu.input max_chars
    ({ tu with input := res.1 }, res.2)
  else (tu, 0)

/-- Tool_use input truncation of one history message. -/
def toolUseMsg (max_chars : Nat) : Message → Message × Nat
  | .assistant a =>
      match a.tool_uses with
      | some tus =>
          let mapped := tus.map (truncateToolUse max_chars)
          (.assistant { a with tool_uses := some (mapped.map Prod.fst) },
            (mapped.map Prod.snd).sum)
      | none => (.assistant a, 0)
  | m => (m, 0)

/-- Model of `compress_tool_use_inputs_pass` (lines 356–373). -/
def compress_tool_use_inputs_pass (state : ConversationState) (max_chars : Nat) :
    ConversationState × Nat :=
  let mapped := state.history.map (toolUseMsg max_chars)
  ({ state with history := mapped.map Prod.fst }, (mapped.map Prod.snd).sum)

/-! ## src/anthropic/compressor.rs — history truncation -/

/-- Byte count of one message's content (`msg_bytes` inside
`compress_history_pass`). -/
def msg_bytes : Message → Nat
  | .user u => u.content.utf8ByteSize
  | .assistant a => a.content.utf8ByteSize

/-- Character count of one message's content (used by the
`max_history_chars` loop). -/
def msgChars : Message → Nat
  | .user u => u.content.length
  | .assistant a => a.content.length

/-- Turn-count trimming loop of `compress_history_pass` (lines 443–452):
while more than `max_messages` messages remain and more than 4 remain,
remove the two messages at indices 2 and 3.  Returns the new history,
turns removed, and bytes saved. -/
def historyTrimByTurns (history : List Message) (max_messages : Nat) :
    List Message × Nat × Nat :=
  if history.length > max_messages ∧ history.length > 2 + 2 then
    let bytes := msg_bytes (history.getD 2 default) + msg_bytes (history.getD 3 default)
    let rest := historyTrimByTurns (history.take 2 ++ history.drop 4) max_messages
    (rest.1, rest.2.1 + 1, rest.2.2 + bytes)
  else (history, 0, 0)
termination_by history.length
decreasing_by
  simp only [List.length_append, List.length_take, List.length_drop]
  omega

/-- Character-count trimming loop of `compress_history_pass`
(lines 455–475): while the total content character count exceeds
`max_chars` and more than 4 messages remain, remove the two messages at
indices 2 and 3. -/
def historyTrimByChars (history : List Message) (max_chars : Nat) :
    List Message × Nat × Nat :=
  if (history.map msgChars).sum ≤ max_chars ∨ history.length ≤ 2 + 2 then
    (history, 0, 0)
  else
    let bytes := msg_bytes (history.getD 2 default) + msg_bytes (history.getD 3 default)
    let rest := historyTrimByChars (history.take 2 ++ history.drop 4) max_chars
    (rest.1, rest.2.1 + 1, rest.2.2 + bytes)
termination_by history.length
decreasing_by
  simp only [List.length_append, List.length_take, List.length_drop]
  omega

/-- Model of `compress_history_pass` (lines 425–479): preserve the first
two messages, trim by turn count and then by character count.  Returns
(state, turns removed, bytes saved). -/
def compress_history_pass (state : ConversationState)
    (max_turns max_chars : Nat) : ConversationState × Nat × Nat :=
  let t :=
    if max_turns > 0 then historyTrimByTurns state.history (2 + max_turns * 2)
    else (state.history, 0, 0)
  let c :=
    if max_chars > 0 then historyTrimByChars t.1 max_chars else (t.1, 0, 0)
  ({ state with history := c.1 }, t.2.1 + c.2.1, t.2.2 + c.2.2)

/-! ## src/anthropic/compressor.rs — long message truncation -/

/-- Model of `truncate_long_content` (lines 597–614): skip the " "
placeholder; content longer than `max_chars` characters keeps its head
and gains a `\n...[content truncated, N chars omitted]` marker. -/
def truncate_long_content (field : String) (max_chars : Nat) : String × Nat :=
  if field = " " then (field, 0)
  else if field.length ≤ max_chars then (field, 0)
  else
    let original_len := field.utf8ByteSize
    let truncated := safe_char_truncate field max_chars
    let omitted := field.length - max_chars
    let res := truncated ++ "\n...[content truncated, " ++ toString omitted ++ " chars omitted]"
    (res, original_len - res.utf8ByteSize)

/-- Long-message truncation of one history message (user messages only). -/
def longMsg (max_chars : Nat) : Message → Message × Nat
  | .user u =>
      let (c, s) := truncate_long_content u.content max_chars
      (.user { u with content := c }, s)
  | m => (m, 0)

/-- Model of `compress_long_messages_pass` (lines 571–592). -/
def compress_long_messages_pass (state : ConversationState) (max_chars : Nat) :
    ConversationState × Nat :=
  if max_chars = 0 then (state, 0)
  else
    let mapped := state.history.map (longMsg max_chars)
    let (cc, cs) := truncate_long_content state.current_message.content max_chars
    ({ state with
        history := mapped.map Prod.fst
        current_message := { state.current_message with content := cc } },
      (mapped.map Prod.snd).sum + cs)

/-! ## src/anthropic/compressor.rs — tool pairing repair -/

/-- Tool_use ids carried by one message (assistants only). -/
def msgToolUseIds : Message → List String
  | .assistant a =>
      match a.tool_uses with
      | some tus => tus.map (·.tool_use_id)
      | none => []
  | _ => []

/-- Tool results carried by one message (users only). -/
def msgToolResults : Message → List ToolResult
  | .user u => u.user_input_message_context.tool_results
  | _ => []

/-- All tool results of a state: the history users' lists followed by the
current message's list. -/
def stateToolResults (history : List Message) (current : UserInputMessage) :
    List ToolResult :=
  history.flatMap msgToolResults ++ current.user_input_message_context.tool_results

/-- Step 2 of `repair_tool_pairing_pass` on one message: retain only tool
results whose id has a matching tool_use in history (the id set `U`).
The Rust `HashSet` is modelled by list membership. -/
def step2Msg (u_ids : List String) : Message → Message
  | .user u =>
      .user { u with user_input_message_context :=
        { u.user_input_message_context with
            tool_results := u.user_input_message_context.tool_results.filter
              (fun tr => u_ids.contains tr.tool_use_id) } }
  | m => m

/-- Step 4 of `repair_tool_pairing_pass` on one message: retain only tool
uses whose id has a matching remaining tool_result (the id set `R`); an
emptied list becomes `None`. -/
def step4Msg (r_ids : List String) : Message → Message
  | .assistant a =>
      match a.tool_uses with
      | some tus =>
          let kept := tus.filter (fun tu => r_ids.contains tu.tool_use_id)
          .assistant { a with tool_uses := if kept.isEmpty then none else some kept }
      | none => .assistant a
  | m => m

/-- Model of `repair_tool_pairing_pass` (lines 488–561): collect the
history tool_use ids, drop orphan tool_results everywhere, collect the
remaining tool_result ids, then drop orphan tool_uses from history.
Returns (state, removed tool_uses, removed tool_results). -/
def repair_tool_pairing_pass (state : ConversationState) :
    ConversationState × Nat × Nat :=
  let tool_use_ids := state.history.flatMap msgToolUseIds
  let history2 := state.history.map (step2Msg tool_use_ids)
  let current2 := { state.current_message with user_input_message_context :=
    { state.current_message.user_input_message_context with
        tool_results := state.current_message.user_input_message_context.tool_results.filter
          (fun tr => tool_use_ids.contains tr.tool_use_id) } }
  let removed_tool_results :=
    (stateToolResults state.history state.current_message).length -
      (stateToolResults history2 current2).length
  let tool_result_ids := (stateToolResults history2 current2).map (·.tool_use_id)
  let history4 := history2.map (step4Msg tool_result_ids)
  let removed_tool_uses :=
    (history2.flatMap msgToolUseIds).length - (history4.flatMap msgToolUseIds).length
  ({ state with history := history4, current_message := current2 },
    removed_tool_uses, removed_tool_results)

/-! ## src/anthropic/compressor.rs — the pipeline -/

/-- Model of `compress` (lines 41–95): when disabled, return the state
untouched with all-zero statistics; otherwise run the five passes in
order, each gated by its configuration knob, and finish with the
unconditional pairing repair. -/
def compress (state : ConversationState) (config : CompressionConfig) :
    ConversationState × CompressionStats :=
  if !config.enabled then (state, {}) else
  let r1 := if config.whitespace_compression then compress_whitespace_pass state
    else (state, 0)
  let r2 := if config.thinking_strategy ≠ "keep" then
      compress_thinking_pass r1.1 config.thinking_strategy
    else (r1.1, 0)
  let r3 := if config.tool_result_max_chars > 0 then
      compress_tool_results_pass r2.1 config.tool_result_max_chars
        config.tool_result_head_lines config.tool_result_tail_lines
    else (r2.1, 0)
  let r4 := if config.tool_use_input_max_chars > 0 then
      compress_tool_use_inputs_pass r3.1 config.tool_use_input_max_chars
    else (r3.1, 0)
  let r5 := if config.max_history_turns > 0 ∨ config.max_history_chars > 0 then
      compress_history_pass r4.1 config.max_history_turns config.max_history_chars
    else (r4.1, 0, 0)
  let r6 := repair_tool_pairing_pass r5.1
  (r6.1,
    { whitespace_saved := r1.2
      thinking_saved := r2.2
      tool_result_saved := r3.2
      tool_use_input_saved := r4.2
      history_turns_removed := r5.2.1
      history_bytes_saved := r5.2.2 })

/-! ## src/anthropic/tool_compression.rs -/

/-- Tool definition size threshold (20KB), `TOOL_SIZE_THRESHOLD`. -/
def TOOL_SIZE_THRESHOLD : Nat := 20 * 1024

/-- Minimum description length kept, `MIN_DESCRIPTION_CHARS`. -/
def MIN_DESCRIPTION_CHARS : Nat := 50

/-- Model of `estimate_tools_size` (lines 79–91): name bytes plus
description bytes plus serialized schema bytes, summed over the tools. -/
def estimate_tools_size (tools : List Tool) : Nat :=
  (tools.map (fun t =>
    t.tool_specification.name.utf8ByteSize +
    t.tool_specification.description.utf8ByteSize +
    (Json.serialize t.tool_specification.input_schema).utf8ByteSize)).sum

theorem sizeOf_jget {fields : List (String × Json)} {key : String} {v : Json}
    (h : jget fields key = some v) : sizeOf v < sizeOf fields := by
  unfold jget at h
  cases hf : fields.find? (fun p => p.fst == key) with
  | none => rw [hf] at h; simp at h
  | some p =>
      rw [hf, Option.map_some', Option.some.injEq] at h
      subst h
      have hmem := List.mem_of_find?_eq_some hf
      have hlt := List.sizeOf_lt_of_mem hmem
      obtain ⟨k, v⟩ := p
      simp only [Prod.mk.sizeOf_spec] at hlt
      simp only []
      omega

mutual

/-- Model of `simplify_json_schema` (lines 111–181), with the
`nested_schema` round trip inlined: the source builds a temporary schema
`{type:"object", properties: np, required?, additionalProperties?}` and
recursively simplifies it, which amounts to simplifying `np`'s entries
and propagating `required` / `additionalProperties` directly. -/
def simplify_json_schema (schema : Json) : Json :=
  match schema with
  | .obj o =>
      let top := (["$schema", "type", "required", "additionalProperties"].filterMap
        (fun key => (jget o key).map (fun v => (key, v))))
      let props :=
        match hp : jget o "properties" with
        | some (.obj p) => [("properties", Json.obj (simplifyProps p))]
        | _ => []
      .obj (top ++ props)
  | _ => schema
termination_by sizeOf schema
decreasing_by
  have h1 := sizeOf_jget hp
  simp only [Json.obj.sizeOf_spec] at h1 ⊢
  omega

/-- Per-property simplification inside `simplify_json_schema`: keep
`type`, the recursively simplified nested `properties` (plus `required`
and `additionalProperties`), simplified `items`, and `enum`. -/
def simplifyProps : List (String × Json) → List (String × Json)
  | [] => []
  | (name, propSchema) :: rest =>
      let entry :=
        match propSchema with
        | .obj propObj =>
            let tyF := match jget propObj "type" with
              | some ty => [("type", ty)]
              | none => []
            let nestedF :=
              match hn : jget propObj "properties" with
              | some np =>
                  let pF := match hnp : np with
                    | .obj npf => [("properties", Json.obj (simplifyProps npf))]
                    | _ => []
                  let rF := match jget propObj "required" with
                    | some r => [("required", r)]
                    | none => []
                  let aF := match jget propObj "additionalProperties" with
                    | some a => [("additionalProperties", a)]
                    | none => []
                  pF ++ rF ++ aF
              | none => []
            let iF := match hi : jget propObj "items" with
              | some items => [("items", simplify_json_schema items)]
              | none => []
            let eF := match jget propObj "enum" with
              | some e => [("enum", e)]
              | none => []
            (name, Json.obj (tyF ++ nestedF ++ iF ++ eF))
        | _ => (name, propSchema)
      entry :: simplifyProps rest
termination_by l => sizeOf l
decreasing_by
  · have h1 := sizeOf_jget hn
    subst hnp
    simp only [Json.obj.sizeOf_spec, List.cons.sizeOf_spec, Prod.mk.sizeOf_spec] at h1 ⊢
    omega
  · have h1 := sizeOf_jget hi
    simp only [Json.obj.sizeOf_spec, List.cons.sizeOf_spec, Prod.mk.sizeOf_spec] at h1 ⊢
    omega
  · simp only [List.cons.sizeOf_spec]
    omega

end

/-- Model of `simplify_schema` (lines 97–108): name and description are
cloned unchanged, the input schema is simplified. -/
def simplify_schema (tool : Tool) : Tool :=
  { tool_specification :=
      { name := tool.tool_specification.name
        description := tool.tool_specification.description
        input_schema := simplify_json_schema tool.tool_specification.input_schema } }

/-- Characters of `l` that fit entirely within the first `n` bytes,
modelling the byte slice `&desc[..n]` at a character boundary `n`. -/
def byteTake (l : List Char) (n : Nat) : List Char :=
  match l with
  | [] => []
  | c :: cs => if c.utf8Size ≤ n then c :: byteTake cs (n - c.utf8Size) else []

/-- Byte position after the last character whose start offset is at most
`target`, starting the scan at byte offset `off`; `0` when no character
qualifies.  This models
`desc.char_indices().take_while(|(idx,_)| *idx <= target).last().map(|(idx,ch)| idx + ch.len_utf8()).unwrap_or(0)`
from lines 57–62 (offsets are strictly increasing, so the last element of
the `take_while` is the deepest qualifying character). -/
def lastBoundary (l : List Char) (off target : Nat) : Nat :=
  match l with
  | [] => 0
  | c :: cs =>
      if off ≤ target then
        let deeper := lastBoundary cs (off + c.utf8Size) target
        if deeper = 0 then off + c.utf8Size else deeper
      else 0

/-- Description truncation step of `compress_tools_if_needed`
(lines 45–65) for one tool, given the ratio-derived byte target
(`(desc.len() as f64 * ratio) as usize` in the source).  `min_bytes`
(`char_indices().nth(50)…unwrap_or(desc.len())`) is the byte length of
the first 50 characters, which the target is floored to. -/
def truncateDescription (desc : String) (target_bytes : Nat) : String :=
  let min_bytes := utf8Len (desc.data.take MIN_DESCRIPTION_CHARS)
  let target := max target_bytes min_bytes
  if desc.utf8ByteSize > target then
    ⟨byteTake desc.data (lastBoundary desc.data 0 target)⟩
  else desc

/-- Model of `compress_tools_if_needed` (lines 18–76).  The `f64` ratio
`TOOL_SIZE_THRESHOLD / size_after_schema` multiplied into each
description length is modelled by exact floored rational arithmetic; the
properties proved below hold for every possible value of the byte target
(the `min_bytes` floor dominates), so the rounding model is immaterial. -/
def compress_tools_if_needed (tools : List Tool) : List Tool :=
  let total_size := estimate_tools_size tools
  if total_size ≤ TOOL_SIZE_THRESHOLD then tools
  else
    let compressed := tools.map simplify_schema
    let size_after_schema := estimate_tools_size compressed
    if size_after_schema ≤ TOOL_SIZE_THRESHOLD then compressed
    else
      compressed.map (fun tool =>
        let desc := tool.tool_specification.description
        let target_bytes := desc.utf8ByteSize * TOOL_SIZE_THRESHOLD / size_after_schema
        { tool_specification := { tool.tool_specification with
            description := truncateDescription desc target_bytes } })

/-! ## src/anthropic/handlers.rs

The handler functions below embed the request-body pre-check shared
verbatim by `post_messages` (lines 691–761) and `post_messages_cc`
(lines 1331–1401), the adaptive shrink loop (lines 102–289) and the
thinking override (lines 1141–1187).  The serde serialization of
`KiroRequest` lives in the absent `src/kiro/model` files and is modelled
from the spec as a camel-cased compact JSON rendering of the data model;
the claims proved against it depend only on the byte length of embedded
payloads, not on field order or naming. -/

/-- Modelled from the spec: the request sent upstream, wrapping the
conversation state and an optional profile ARN. -/
structure KiroRequest where
  conversation_state : ConversationState
  profile_arn : Option String

/-- Modelled from the spec: JSON rendering of a tool result. -/
def Json.ofToolResult (tr : ToolResult) : Json :=
  .obj [("toolUseId", .str tr.tool_use_id), ("content", .arr (tr.content.map .obj))]

/-- Modelled from the spec: JSON rendering of a declared tool. -/
def Json.ofTool (t : Tool) : Json :=
  .obj [("toolSpecification", .obj
    [("name", .str t.tool_specification.name),
     ("description", .str t.tool_specification.description),
     ("inputSchema", .obj [("json", t.tool_specification.input_schema)])])]

/-- Modelled from the spec: JSON rendering of a tool use. -/
def Json.ofToolUse (tu : ToolUseEntry) : Json :=
  .obj [("toolUseId", .str tu.tool_use_id), ("name", .str tu.name), ("input", tu.input)]

/-- Modelled from the spec: JSON rendering of an image. -/
def Json.ofImage (img : Image) : Json :=
  .obj [("source", .obj [("bytes", .str img.bytes)])]

/-- Modelled from the spec: JSON rendering of a user message. -/
def Json.ofUserMsg (u : UserInputMessage) : Json :=
  .obj [("content", .str u.content),
    ("userInputMessageContext", .obj
      [("toolResults", .arr (u.user_input_message_context.tool_results.map Json.ofToolResult)),
       ("tools", .arr (u.user_input_message_context.tools.map Json.ofTool))]),
    ("images", .arr (u.images.map Json.ofImage))]

/-- Modelled from the spec: JSON rendering of a history message; the
optional `toolUses` field is omitted when absent. -/
def Json.ofMessage : Message → Json
  | .user u => .obj [("userInputMessage", Json.ofUserMsg u)]
  | .assistant a =>
      .obj [("assistantResponseMessage", .obj
        ([("content", .str a.content)] ++
          (match a.tool_uses with
            | some tus => [("toolUses", Json.arr (tus.map Json.ofToolUse))]
            | none => [])))]

/-- Modelled from the spec: JSON rendering of the conversation state. -/
def Json.ofState (s : ConversationState) : Json :=
  .obj [("conversationId", .str s.conversation_id),
    ("history", .arr (s.history.map Json.ofMessage)),
    ("currentMessage", .obj [("userInputMessage", Json.ofUserMsg s.current_message)])]

/-- Modelled from the spec: `serde_json::to_string(&kiro_request)`, the
serialized request body. -/
def serializeKiroRequest (k : KiroRequest) : String :=
  Json.serialize (.obj ([("conversationState", Json.ofState k.conversation_state)] ++
    (match k.profile_arn with
      | some a => [("profileArn", Json.str a)]
      | none => [])))

/-- Model of `total_image_bytes` (lines 81–100): base64 payload bytes of
the current message's images plus the history users' images. -/
def total_image_bytes (k : KiroRequest) : Nat :=
  (k.conversation_state.current_message.images.map (fun i => i.bytes.utf8ByteSize)).sum +
  (k.conversation_state.history.map (fun m =>
    match m with
    | .user u => (u.images.map (fun i => i.bytes.utf8ByteSize)).sum
    | _ => 0)).sum

/-- Hard iteration cap of the adaptive loop
(`ADAPTIVE_COMPRESSION_MAX_ITERS`). -/
def ADAPTIVE_COMPRESSION_MAX_ITERS : Nat := 32

/-- Outcome record of the adaptive loop (`AdaptiveCompressionOutcome`). -/
structure AdaptiveCompressionOutcome where
  initial_bytes : Nat := 0
  final_bytes : Nat := 0
  iters : Nat := 0
  additional_history_turns_removed : Nat := 0
  final_tool_result_max_chars : Nat := 0
  final_tool_use_input_max_chars : Nat := 0
  final_message_content_max_chars : Nat := 0
deriving DecidableEq, Repr, Inhabited

/-- Mutable state of the adaptive shrink loop: the request, the working
config, the long-message threshold, the serialized body and the outcome
record. -/
structure AdaptiveLoopState where
  kiro : KiroRequest
  adaptive_config : CompressionConfig
  message_content_max_chars : Nat
  request_body : String
  outcome : AdaptiveCompressionOutcome

/-- One shrinking move of the adaptive loop (the `changed` block of
lines 205–271): lower the tool_result threshold, else the tool_use
threshold, else truncate long user contents, else drain up to 16 of the
oldest non-preserved messages.  Returns the updated state and the
`changed` flag. -/
def adaptiveStep (max_body : Nat) (has_any_tool_results_or_tools has_any_tool_uses : Bool)
    (st : AdaptiveLoopState) : AdaptiveLoopState × Bool :=
  if has_any_tool_results_or_tools ∧ st.adaptive_config.tool_result_max_chars > 512 then
    let next := max 512 (st.adaptive_config.tool_result_max_chars * 3 / 4)
    if next < st.adaptive_config.tool_result_max_chars then
      ({ st with adaptive_config :=
          { st.adaptive_config with tool_result_max_chars := next } }, true)
    else (st, false)
  else if has_any_tool_uses ∧ st.adaptive_config.tool_use_input_max_chars > 256 then
    let next := max 256 (st.adaptive_config.tool_use_input_max_chars * 3 / 4)
    if next < st.adaptive_config.tool_use_input_max_chars then
      ({ st with adaptive_config :=
          { st.adaptive_config with tool_use_input_max_chars := next } }, true)
    else (st, false)
  else
    let state := st.kiro.conversation_state
    let max_single_user_content_bytes :=
      (state.history.map (fun m =>
        match m with
        | .user u => u.content.utf8ByteSize
        | _ => 0)).foldl max state.current_message.content.utf8ByteSize
    if (max_single_user_content_bytes > max_body ∨ state.history.length ≤ 2 + 2) ∧
        st.message_content_max_chars ≥ 8192 then
      let r := compress_long_messages_pass state st.message_content_max_chars
      ({ st with
          kiro := { st.kiro with conversation_state := r.1 }
          outcome := { st.outcome with
            final_message_content_max_chars := st.message_content_max_chars }
          message_content_max_chars :=
            max 8192 (st.message_content_max_chars * 3 / 4) },
        decide (r.2 > 0))
    else if state.history.length > 2 + 2 then
      let removable := state.history.length - (2 + 2)
      let remove0 := min removable 16
      let remove_msgs := remove0 - remove0 % 2
      if remove_msgs > 0 then
        ({ st with
            kiro := { st.kiro with conversation_state :=
              { state with history :=
                  state.history.take 2 ++ state.history.drop (2 + remove_msgs) } }
            outcome := { st.outcome with
              additional_history_turns_removed :=
                st.outcome.additional_history_turns_removed + remove_msgs / 2 } },
          true)
      else (st, false)
    else (st, false)

/-- The bounded iteration of `adaptive_shrink_request_body`
(`for _ in 0..ADAPTIVE_COMPRESSION_MAX_ITERS`, lines 200–281): stop when
the body fits or when a move changes nothing; otherwise rerun the full
compression pipeline under the updated working config, reserialize and
count the iteration. -/
def adaptiveLoop (max_body : Nat) (hasTR hasTU : Bool) :
    Nat → AdaptiveLoopState → AdaptiveLoopState
  | 0, st => st
  | fuel + 1, st =>
      if st.request_body.utf8ByteSize ≤ max_body then st
      else
        let step := adaptiveStep max_body hasTR hasTU st
        if !step.2 then step.1
        else
          let st1 := step.1
          let state2 := (compress st1.kiro.conversation_state st1.adaptive_config).1
          let kiro2 := { st1.kiro with conversation_state := state2 }
          let body2 := serializeKiroRequest kiro2
          adaptiveLoop max_body hasTR hasTU fuel
            { st1 with
                kiro := kiro2
                request_body := body2
                outcome := { st1.outcome with
                  iters := st1.outcome.iters + 1
                  final_bytes := body2.utf8ByteSize } }

/-- The `has_any_tool_results_or_tools` scan of
`adaptive_shrink_request_body` (lines 132–164). -/
def has_any_tool_results_or_tools (state : ConversationState) : Bool :=
  !state.current_message.user_input_message_context.tool_results.isEmpty ||
  !state.current_message.user_input_message_context.tools.isEmpty ||
  state.history.any (fun m =>
    match m with
    | .user u =>
        !u.user_input_message_context.tool_results.isEmpty ||
        !u.user_input_message_context.tools.isEmpty
    | _ => false)

/-- The `has_any_tool_uses` scan (lines 167–178). -/
def has_any_tool_uses (state : ConversationState) : Bool :=
  state.history.any (fun m =>
    match m with
    | .assistant a =>
        match a.tool_uses with
        | some t => !t.isEmpty
        | none => false
    | _ => false)

/-- The loop state `adaptive_shrink_request_body` enters its loop with:
the request, the working copy of the config, `message_content_max_chars`
initialized to ¾ of the largest user content floored at 8192
(lines 181–198), the serialized body and the initial outcome record. -/
def adaptiveInitState (kiro : KiroRequest) (base_config : CompressionConfig)
    (request_body : String) : AdaptiveLoopState :=
  let state := kiro.conversation_state
  let max_content_chars :=
    (state.history.map (fun m =>
      match m with
      | .user u => u.content.length
      | _ => 0)).foldl max state.current_message.content.length
  { kiro := kiro
    adaptive_config := base_config
    message_content_max_chars := max (max_content_chars * 3 / 4) 8192
    request_body := request_body
    outcome :=
      { initial_bytes := request_body.utf8ByteSize
        final_bytes := request_body.utf8ByteSize
        iters := 0
        additional_history_turns_removed := 0
        final_tool_result_max_chars := base_config.tool_result_max_chars
        final_tool_use_input_max_chars := base_config.tool_use_input_max_chars
        final_message_content_max_chars := 0 } }

/-- Model of `adaptive_shrink_request_body` (lines 102–289).  The
`serde_json::Error` branch of the source cannot occur in the model (the
serializer is total), so the result is the shrunk request, its body and
the optional outcome. -/
def adaptive_shrink_request_body (kiro : KiroRequest)
    (base_config : CompressionConfig) (max_body : Nat) (request_body : String) :
    KiroRequest × String × Option AdaptiveCompressionOutcome :=
  if max_body = 0 ∨ request_body.utf8ByteSize ≤ max_body ∨ ¬base_config.enabled then
    (kiro, request_body, none)
  else
    let final := adaptiveLoop max_body
      (has_any_tool_results_or_tools kiro.conversation_state)
      (has_any_tool_uses kiro.conversation_state)
      ADAPTIVE_COMPRESSION_MAX_ITERS
      (adaptiveInitState kiro base_config request_body)
    (final.kiro, final.request_body,
      some { final.outcome with
        final_tool_result_max_chars := final.adaptive_config.tool_result_max_chars
        final_tool_use_input_max_chars := final.adaptive_config.tool_use_input_max_chars })

/-- Result of the request-body byte pre-check: either the body is
dispatched upstream or the handler answers with an error response. -/
inductive PrecheckResult where
  | dispatch (body : String) : PrecheckResult
  | reject (status : Nat) (error_type : String) (message : String) : PrecheckResult

/-- The 400 message of the byte pre-check, reporting total bytes, image
bytes, non-image bytes and the limit (lines 750–757). -/
def requestTooLargeMessage (total img nonimg limit : Nat) : String :=
  "Request too large (" ++ toString total ++ " bytes total; images " ++ toString img ++
    " bytes; non-image " ++ toString nonimg ++ " bytes; limit " ++ toString limit ++
    "). Reduce conversation history/tool output or number/size of images."

/-- The post-shrink size check of the handlers (lines 730–761): compute
the image-byte attribution and refuse with a 400 when the body still
exceeds a positive budget, else dispatch the body. -/
def final_size_check (shrunk : KiroRequest × String) (max_body : Nat) :
    PrecheckResult :=
  let final_img_bytes := total_image_bytes shrunk.1
  let final_effective_len := shrunk.2.utf8ByteSize - final_img_bytes
  if max_body > 0 ∧ shrunk.2.utf8ByteSize > max_body then
    .reject 400 "invalid_request_error"
      (requestTooLargeMessage shrunk.2.utf8ByteSize final_img_bytes
        final_effective_len max_body)
  else .dispatch shrunk.2

/-- Model of the request-body byte pre-check shared by `post_messages`
(lines 691–761) and `post_messages_cc` (lines 1331–1401): serialize the
request, run the adaptive shrink when the body exceeds a positive budget
and compression is enabled, then refuse with a 400 when the (possibly
shrunk) body still exceeds the budget, else dispatch exactly that body. -/
def request_body_precheck (kiro : KiroRequest) (cfg : CompressionConfig) :
    PrecheckResult :=
  let request_body := serializeKiroRequest kiro
  let max_body := cfg.max_request_body_bytes
  let shrunk :=
    if max_body > 0 ∧ request_body.utf8ByteSize > max_body ∧ cfg.enabled then
      let r := adaptive_shrink_request_body kiro cfg max_body request_body
      (r.1, r.2.1)
    else (kiro, request_body)
  final_size_check shrunk max_body

/-! ## src/anthropic/handlers.rs — thinking override -/

/-- Thinking configuration of a request (`Thinking` in the absent
`src/anthropic/types.rs`, modelled from the spec). -/
structure Thinking where
  thinking_type : String
  budget_tokens : Nat
deriving DecidableEq, Repr

/-- Output configuration of a request (modelled from the spec). -/
structure OutputConfig where
  effort : String
deriving DecidableEq, Repr

/-- Modelled from the spec: the fields of `MessagesRequest` read and
written by `override_thinking_from_model_name` (the full request type
lives in the absent `src/anthropic/types.rs`). -/
structure MessagesRequest where
  model : String
  thinking : Option Thinking
  output_config : Option OutputConfig
deriving DecidableEq, Repr

/-- Model of Rust `String::to_lowercase` as used on model names:
character-wise ASCII lowering (`Char.toLower`); the multi-character
Unicode lowerings of the full Rust function cannot occur in model
names. -/
def rustToLowercase (s : String) : String :=
  ⟨s.data.map Char.toLower⟩

/-- Model of Rust `str::contains(&str)`. -/
def containsSubstr (s pat : String) : Bool :=
  (findSublist pat.data s.data).isSome

/-- Model of Rust `str::ends_with(&str)`. -/
def strEndsWith (s sfx : String) : Bool :=
  sfx.data.isSuffixOf s.data

/-- The `is_opus_or_sonnet_4_6` condition of
`override_thinking_from_model_name` (line 1165): the lowercased model
name mentions opus or sonnet together with `4-6` or `4.6`. -/
def isOpusOrSonnet46 (m : String) : Bool :=
  (containsSubstr m "opus" || containsSubstr m "sonnet") &&
  (containsSubstr m "4-6" || containsSubstr m "4.6")

/-- Model of `override_thinking_from_model_name` (lines 1141–1187).
Modelled from the spec: the source's `thinking_type` branch reads the
undefined variable `is_opus_4_6` (a compile-time slip for the
`is_opus_or_sonnet_4_6` computed on the previous line); following the
spec's design note and the source's own log message, the intent
`is_opus_or_sonnet_4_6` is used for both the thinking type and the
output config. -/
def override_thinking_from_model_name (payload : MessagesRequest) : MessagesRequest :=
  let model_lower := rustToLowercase payload.model
  if !containsSubstr model_lower "thinking" then payload
  else
    let budget? : Option Nat :=
      if strEndsWith model_lower "-thinking-minimal" then some 512
      else if strEndsWith model_lower "-thinking-low" then some 1024
      else if strEndsWith model_lower "-thinking-medium" then some 8192
      else if strEndsWith model_lower "-thinking-high" then some 24576
      else if strEndsWith model_lower "-thinking-xhigh" then some 32768
      else if strEndsWith model_lower "-thinking" then some 20000
      else none
    match budget? with
    | none => payload
    | some budget_tokens =>
        let is_opus_or_sonnet_4_6 := isOpusOrSonnet46 model_lower
        let thinking_type := if is_opus_or_sonnet_4_6 then "adaptive" else "enabled"
        { payload with
            thinking := some ⟨thinking_type, budget_tokens⟩
            output_config :=
              if is_opus_or_sonnet_4_6 then some ⟨"high"⟩ else payload.output_config }

/-! ## General lemmas about the string primitives -/

theorem utf8ByteSize_eq (s : String) : s.utf8ByteSize = utf8Len s.data := by
  cases s with
  | mk l =>
      induction l with
      | nil => rfl
      | cons c cs ih =>
          simp only [String.utf8ByteSize, String.utf8ByteSize.go, utf8Len, List.foldr] at ih ⊢
          omega

theorem utf8Len_eq_sum (l : List Char) : utf8Len l = (l.map Char.utf8Size).sum := by
  induction l with
  | nil => rfl
  | cons c cs ih => simp [utf8Len, List.foldr] at ih ⊢; omega

theorem utf8Len_append (l₁ l₂ : List Char) :
    utf8Len (l₁ ++ l₂) = utf8Len l₁ + utf8Len l₂ := by
  simp [utf8Len_eq_sum]

theorem utf8Len_le_of_prefix {l₁ l₂ : List Char} (h : l₁ <+: l₂) :
    utf8Len l₁ ≤ utf8Len l₂ := by
  obtain ⟨t, rfl⟩ := h
  rw [utf8Len_append]
  omega

theorem utf8Len_take_le (l : List Char) (n : Nat) : utf8Len (l.take n) ≤ utf8Len l :=
  utf8Len_le_of_prefix (List.take_prefix n l)

theorem safe_char_truncate_length (s : String) (n : Nat) :
    (safe_char_truncate s n).length ≤ n ∨ safe_char_truncate s n = s := by
  unfold safe_char_truncate
  split
  · exact Or.inr rfl
  · left
    show (List.take n s.data).length ≤ n
    simp [List.length_take]

theorem safe_char_truncate_length_le (s : String) (n : Nat) :
    (safe_char_truncate s n).length ≤ n := by
  unfold safe_char_truncate
  split
  · assumption
  · show (List.take n s.data).length ≤ n
    simp [List.length_take]

theorem safe_char_truncate_pfx (s : String) (n : Nat) :
    (safe_char_truncate s n).data <+: s.data := by
  unfold safe_char_truncate
  split
  · exact List.prefix_refl _
  · exact List.take_prefix n s.data

theorem safe_char_truncate_utf8_le (s : String) (n : Nat) :
    (safe_char_truncate s n).utf8ByteSize ≤ s.utf8ByteSize := by
  rw [utf8ByteSize_eq, utf8ByteSize_eq]
  exact utf8Len_le_of_prefix (safe_char_truncate_pfx s n)

/-! ## Claim C7 -/

/-- C7 (amended): for every tool_use input, `detect_truncation`
classifies it as exactly: `EmptyInput` if the trimmed input is empty;
else `IncompleteString` if it contains an unclosed string literal; else
`InvalidJson` if its brackets are unbalanced; and otherwise it returns
no classification at all (`none`) — in particular it never returns
`MissingFields` on any input. -/
theorem claim_C7_detect_truncation (tool_name tool_use_id raw_input : String) :
    ((rustTrim raw_input).isEmpty = true →
      detect_truncation tool_name tool_use_id raw_input =
        some ⟨.emptyInput, tool_name, tool_use_id, raw_input⟩) ∧
    ((rustTrim raw_input).isEmpty = false →
      has_unclosed_string (rustTrim raw_input) = true →
      detect_truncation tool_name tool_use_id raw_input =
        some ⟨.incompleteString, tool_name, tool_use_id, raw_input⟩) ∧
    ((rustTrim raw_input).isEmpty = false →
      has_unclosed_string (rustTrim raw_input) = false →
      are_brackets_balanced (rustTrim raw_input) = false →
      detect_truncation tool_name tool_use_id raw_input =
        some ⟨.invalidJson, tool_name, tool_use_id, raw_input⟩) ∧
    ((rustTrim raw_input).isEmpty = false →
      has_unclosed_string (rustTrim raw_input) = false →
      are_brackets_balanced (rustTrim raw_input) = true →
      detect_truncation tool_name tool_use_id raw_input = none) ∧
    (∀ info, detect_truncation tool_name tool_use_id raw_input = some info →
      info.truncation_type ≠ .missingFields) := by
  refine ⟨?_, ?_, ?_, ?_, ?_⟩
  · intro h1
    simp [detect_truncation, h1]
  · intro h1 h2
    simp [detect_truncation, h1, h2]
  · intro h1 h2 h3
    simp [detect_truncation, h1, h2, h3]
  · intro h1 h2 h3
    simp [detect_truncation, h1, h2, h3]
  · intro info h
    simp only [detect_truncation] at h
    split_ifs at h <;>
      first
        | (simp only [Option.some.injEq] at h; subst h; simp)
        | simp at h

/-- C7 counterexample: on the concrete input `{"a":}` — which is not
parseable JSON — `detect_truncation` returns `none`, not a
`MissingFields` classification as the claim's final arm states. -/
theorem claim_C7_counterexample :
    detect_truncation "Write" "tool-1" "\x7b\"a\":\x7d" = none ∧
    detect_truncation "Write" "tool-1" "\x7b\"a\":\x7d" ≠
      some ⟨.missingFields, "Write", "tool-1", "\x7b\"a\":\x7d"⟩ := by
  exact ⟨by decide, by decide⟩

/-- C7 witness: the classification arms instantiated on concrete inputs. -/
theorem claim_C7_witness :
    detect_truncation "Write" "tool-1" "   " =
      some ⟨.emptyInput, "Write", "tool-1", "   "⟩ ∧
    detect_truncation "Write" "tool-1" "\"abc" =
      some ⟨.incompleteString, "Write", "tool-1", "\"abc"⟩ ∧
    detect_truncation "Write" "tool-1" "[1" =
      some ⟨.invalidJson, "Write", "tool-1", "[1"⟩ ∧
    detect_truncation "Write" "tool-1" "[1]" = none :=
  ⟨(claim_C7_detect_truncation "Write" "tool-1" "   ").1 (by decide),
   (claim_C7_detect_truncation "Write" "tool-1" "\"abc").2.1 (by decide) (by decide),
   (claim_C7_detect_truncation "Write" "tool-1" "[1").2.2.1 (by decide) (by decide) (by decide),
   (claim_C7_detect_truncation "Write" "tool-1" "[1]").2.2.2.1 (by decide) (by decide) (by decide)⟩

/-! ## Claim C9 -/

/-- C9: when `config.enabled` is false, `compress` returns immediately
with every statistic zero and the `ConversationState` entirely
unchanged — the pairing-repair pass included, so even a state with
orphan tool payloads passes through untouched. -/
theorem claim_C9_disabled_noop (state : ConversationState) (config : CompressionConfig)
    (h : config.enabled = false) :
    compress state config = (state, ⟨0, 0, 0, 0, 0, 0⟩) := by
  simp [compress, h]

/-- Concrete state whose current message carries a tool_result with no
matching tool_use anywhere (an orphan) and whose history assistant
carries a tool_use with no matching tool_result. -/
def c9state : ConversationState :=
  { conversation_id := "o"
    history := [.user ⟨"sys", ⟨[], []⟩, []⟩,
                .assistant ⟨"ok", some [⟨"tX", "Read", .null⟩]⟩]
    current_message := ⟨" ", ⟨[⟨"tY", [[("text", .str "orphan")]]⟩], []⟩, []⟩ }

/-- Disabled configuration used by the C9 witness. -/
def c9cfg : CompressionConfig := { CompressionConfig.default with enabled := false }

/-- C9 witness: the disabled pipeline leaves the orphan-carrying state
untouched ("tY" has no matching tool_use, "tX" no matching tool_result). -/
theorem claim_C9_witness :
    c9cfg.enabled = false ∧
    ("tY" ∈ (stateToolResults c9state.history c9state.current_message).map
        (·.tool_use_id) ∧
      "tY" ∉ c9state.history.flatMap msgToolUseIds) ∧
    compress c9state c9cfg = (c9state, ⟨0, 0, 0, 0, 0, 0⟩) :=
  ⟨rfl, ⟨by decide, by decide⟩, claim_C9_disabled_noop c9state c9cfg rfl⟩

/-! ## Claim C8 -/

/-- C8: in tool_use input truncation the `...[truncated N chars]` marker
is kept only when the marked form is strictly shorter in bytes than the
original, so no string value ever grows in byte length; and on the
concrete input `{"content": "a"×101}` with cap 100 the result is exactly
`{"content": "a"×100}` with no marker. -/
theorem claim_C8_no_expansion :
    (∀ (s : String) (max_chars : Nat) (s2 : String),
      (truncate_json_value_strings (Json.str s) max_chars).1 = Json.str s2 →
      s2.utf8ByteSize ≤ s.utf8ByteSize) ∧
    (truncate_json_value_strings
        (Json.obj [("content", Json.str (String.mk (List.replicate 101 'a')))]) 100).1 =
      Json.obj [("content", Json.str (String.mk (List.replicate 100 'a')))] := by
  constructor
  · intro s max_chars s2 h
    unfold truncate_json_value_strings at h
    split_ifs at h with h1
    · simp only [Json.str.injEq] at h
      subst h
      split
      · next h2 => exact le_of_lt h2
      · exact safe_char_truncate_utf8_le s max_chars
    · simp only [Json.str.injEq] at h
      subst h
      exact le_refl _
  · rfl

/-- C8 witness: the no-growth bound instantiated at a concrete string. -/
theorem claim_C8_witness :
    (truncate_json_value_strings (Json.str "aa") 1).1 = Json.str "a" ∧
    ("a" : String).utf8ByteSize ≤ ("aa" : String).utf8ByteSize :=
  ⟨rfl, claim_C8_no_expansion.1 "aa" 1 "a" rfl⟩

/-! ## Claim C4 -/

/-- C4 (amended): every truncation slices at Unicode character
boundaries — the kept slice is a character-level prefix of the original
(so the result is well-formed UTF-8) with at most the configured number
of characters; the line-based branch of tool-result smart truncation
additionally enforces the hard total cap `max_chars`.  The assembled
results of the other branches may exceed the cap by their appended
omission markers (see the counterexample). -/
theorem claim_C4_truncation_safety :
    (∀ (s : String) (n : Nat),
      (safe_char_truncate s n).length ≤ n ∧ (safe_char_truncate s n).data <+: s.data) ∧
    (∀ (text : String) (max_chars head_lines tail_lines : Nat),
      head_lines + tail_lines < (rustLines text.data).length →
      (smart_truncate_by_lines text max_chars head_lines tail_lines).1.length ≤ max_chars) := by
  constructor
  · intro s n
    exact ⟨safe_char_truncate_length_le s n, safe_char_truncate_pfx s n⟩
  · intro text max_chars head_lines tail_lines hlines
    simp only [smart_truncate_by_lines]
    split
    · next h1 => exact h1
    · split
      · next h2 => omega
      · next h2 =>
          split
          · exact safe_char_truncate_length_le _ _
          · next h3 => dsimp only; omega

/-- C4 counterexample: the character-budget branch of
`smart_truncate_by_lines` (total lines within the head+tail budget)
returns a string whose character count exceeds the cap: a 101-character
single-line input truncated with cap 100 yields 127 characters. -/
theorem claim_C4_counterexample :
    100 < (smart_truncate_by_lines
      (String.mk (List.replicate 101 'a')) 100 3 2).1.length := by decide

/-- C4 witness: the amended bounds instantiated on concrete inputs. -/
theorem claim_C4_witness :
    1 + 1 < (rustLines ("l1\nl2\nl3\nl4".data)).length ∧
    (smart_truncate_by_lines "l1\nl2\nl3\nl4" 5 1 1).1.length ≤ 5 ∧
    (safe_char_truncate "abcd" 2).length ≤ 2 ∧
    (safe_char_truncate "abcd" 2).data <+: "abcd".data :=
  ⟨by decide,
   claim_C4_truncation_safety.2 "l1\nl2\nl3\nl4" 5 1 1 (by decide),
   (claim_C4_truncation_safety.1 "abcd" 2).1,
   (claim_C4_truncation_safety.1 "abcd" 2).2⟩

/-! ## Claim C2 -/

theorem final_size_check_dichotomy (p : KiroRequest × String) (mb : Nat)
    (h : mb > 0) :
    (∃ body, final_size_check p mb = .dispatch body ∧ body.utf8ByteSize ≤ mb) ∨
    (∃ total img, total > mb ∧
      final_size_check p mb = .reject 400 "invalid_request_error"
        (requestTooLargeMessage total img (total - img) mb)) := by
  simp only [final_size_check]
  split
  · next hc => exact Or.inr ⟨_, _, hc.2, rfl⟩
  · next hc =>
      refine Or.inl ⟨_, rfl, ?_⟩
      have := not_and.mp hc h
      omega

/-- C2: with a positive `max_request_body_bytes`, the pre-check either
dispatches a body whose byte length is within the budget, or answers
400 `invalid_request_error` with a message reporting total bytes, image
bytes and non-image bytes — a body above the budget is never dispatched. -/
theorem claim_C2_byte_budget (kiro : KiroRequest) (cfg : CompressionConfig)
    (h : cfg.max_request_body_bytes > 0) :
    (∃ body, request_body_precheck kiro cfg = .dispatch body ∧
      body.utf8ByteSize ≤ cfg.max_request_body_bytes) ∨
    (∃ total img, total > cfg.max_request_body_bytes ∧
      request_body_precheck kiro cfg = .reject 400 "invalid_request_error"
        (requestTooLargeMessage total img (total - img) cfg.max_request_body_bytes)) := by
  simp only [request_body_precheck]
  exact final_size_check_dichotomy _ _ h

/-- Tiny request used as the C2 witness (it fits the default budget). -/
def c2kiro : KiroRequest :=
  ⟨⟨"w", [], ⟨"hi", ⟨[], []⟩, []⟩⟩, none⟩

/-- C2 witness: the dichotomy instantiated on a concrete request under
the default configuration. -/
theorem claim_C2_witness :
    CompressionConfig.default.max_request_body_bytes > 0 ∧
    ((∃ body, request_body_precheck c2kiro CompressionConfig.default = .dispatch body ∧
      body.utf8ByteSize ≤ CompressionConfig.default.max_request_body_bytes) ∨
    (∃ total img, total > CompressionConfig.default.max_request_body_bytes ∧
      request_body_precheck c2kiro CompressionConfig.default =
        .reject 400 "invalid_request_error"
          (requestTooLargeMessage total img (total - img)
            CompressionConfig.default.max_request_body_bytes))) :=
  ⟨by decide, claim_C2_byte_budget c2kiro CompressionConfig.default (by decide)⟩

/-! ## Claim C3 -/

theorem adaptiveStep_iters (mb : Nat) (a b : Bool) (st : AdaptiveLoopState) :
    ((adaptiveStep mb a b st).1).outcome.iters = st.outcome.iters := by
  simp only [adaptiveStep]
  split_ifs <;> rfl

theorem adaptiveLoop_iters_le (mb : Nat) (a b : Bool) (fuel : Nat)
    (st : AdaptiveLoopState) :
    (adaptiveLoop mb a b fuel st).outcome.iters ≤ st.outcome.iters + fuel := by
  induction fuel generalizing st with
  | zero => simp [adaptiveLoop]
  | succ n ih =>
      simp only [adaptiveLoop]
      split
      · omega
      · split
        · have h1 := adaptiveStep_iters mb a b st
          omega
        · refine le_trans (ih _) ?_
          have h1 := adaptiveStep_iters mb a b st
          dsimp only
          omega

/-- C3 (amended): whenever `adaptive_shrink_request_body` runs its loop,
the reported iteration count is at most the hard cap of 32 — the loop
always terminates within 32 iterations (it also stops as soon as the
body fits the budget or a move changes nothing).  The monotonicity half
of the original claim fails: see the counterexample. -/
theorem claim_C3_bounded_iterations (kiro : KiroRequest)
    (cfg : CompressionConfig) (mb : Nat) (body : String)
    (o : AdaptiveCompressionOutcome)
    (h : (adaptive_shrink_request_body kiro cfg mb body).2.2 = some o) :
    o.iters ≤ ADAPTIVE_COMPRESSION_MAX_ITERS := by
  simp only [adaptive_shrink_request_body] at h
  split at h
  · simp at h
  · simp only [Option.some.injEq] at h
    subst h
    refine le_trans (adaptiveLoop_iters_le _ _ _ _ _) ?_
    simp [adaptiveInitState]

/-- Configuration of the C3 counterexample: compression enabled, only
the tool_result threshold active (1067 characters), so the adaptive
loop's first layer is the only shrinking move. -/
def c3cfg : CompressionConfig :=
  { enabled := true, whitespace_compression := false, thinking_strategy := "keep",
    tool_result_max_chars := 1067, tool_result_head_lines := 3, tool_result_tail_lines := 2,
    tool_use_input_max_chars := 0, tool_description_max_chars := 0,
    max_history_turns := 0, max_history_chars := 0,
    image_max_long_edge := 0, image_max_pixels_single := 0, image_max_pixels_multi := 0,
    image_multi_threshold := 0, max_request_body_bytes := 10 }

/-- State of the C3 counterexample: a properly paired tool_use /
tool_result whose result text is a single line of 601 characters. -/
def c3state : ConversationState :=
  { conversation_id := "c"
    history := [.user ⟨"x", ⟨[], []⟩, []⟩,
                .assistant ⟨"y", some [⟨"t1", "Read", .obj [("path", .str "a.txt")]⟩]⟩]
    current_message :=
      ⟨"go", ⟨[⟨"t1", [[("text", .str (String.mk (List.replicate 601 'a')))]]⟩], []⟩, []⟩ }

/-- The C3 counterexample request. -/
def c3kiro : KiroRequest := ⟨c3state, none⟩

/-- Its serialized body. -/
def c3body : String := serializeKiroRequest c3kiro

set_option maxHeartbeats 4000000 in
/-- C3 counterexample: the serialized body length is not non-increasing
across successive iterations of the shrink loop.  The fuel-indexed
iterates below are exactly the loop `adaptive_shrink_request_body` runs
on this input (same flags, same initial state; only the fuel differs
from the 32 cap).  The first iteration lowers the tool_result cap
1067 → 800 without changing anything (the 601-character text fits), and
the second lowers it to 600, which smart truncation turns into a
600-character split *plus* an omission marker — the serialized body
grows between iterations 1 and 2. -/
theorem claim_C3_counterexample :
    (adaptiveLoop 10 (has_any_tool_results_or_tools c3state) (has_any_tool_uses c3state) 1
        (adaptiveInitState c3kiro c3cfg c3body)).request_body.utf8ByteSize <
      (adaptiveLoop 10 (has_any_tool_results_or_tools c3state) (has_any_tool_uses c3state) 2
        (adaptiveInitState c3kiro c3cfg c3body)).request_body.utf8ByteSize := by
  decide

/-- Small request used by the C3 witness: no tool payloads and a short
history, so the loop's first move changes nothing and it stops at once. -/
def c3small : KiroRequest := ⟨⟨"w", [], ⟨"hi", ⟨[], []⟩, []⟩⟩, none⟩

set_option maxHeartbeats 4000000 in
/-- C3 witness: a concrete run of `adaptive_shrink_request_body`
produces an outcome, and the amended bound applies to it. -/
theorem claim_C3_witness :
    (∃ o, (adaptive_shrink_request_body c3small CompressionConfig.default 1
        (serializeKiroRequest c3small)).2.2 = some o ∧
      o.iters ≤ ADAPTIVE_COMPRESSION_MAX_ITERS) :=
  ⟨_, rfl, claim_C3_bounded_iterations c3small CompressionConfig.default 1
    (serializeKiroRequest c3small) _ rfl⟩

/-! ## Claim C6 -/

theorem findSublist_isSome_of_infix {pat l : List Char} (h : pat <:+: l) :
    (findSublist pat l).isSome := by
  induction l with
  | nil =>
      have : pat = [] := List.infix_nil.mp h
      subst this
      simp [findSublist]
  | cons c rest ih =>
      rcases List.infix_cons_iff.mp h with hpre | hinf
      · simp [findSublist, List.isPrefixOf_iff_prefix.mpr hpre]
      · by_cases hp : pat.isPrefixOf (c :: rest)
        · simp [findSublist, hp]
        · simp only [findSublist, hp, if_false]
          simpa using ih hinf

theorem containsSubstr_of_infix {s pat : String} (h : pat.data <:+: s.data) :
    containsSubstr s pat = true := by
  unfold containsSubstr
  exact findSublist_isSome_of_infix h

theorem strEndsWith_iff {s sfx : String} :
    strEndsWith s sfx = true ↔ sfx.data <:+ s.data := by
  unfold strEndsWith
  exact List.isSuffixOf_iff_suffix

theorem not_strEndsWith_of_incomparable {m : String} (a b : String)
    (hb : strEndsWith m b = true)
    (h1 : ¬ a.data <:+ b.data) (h2 : ¬ b.data <:+ a.data) :
    strEndsWith m a = false := by
  cases ha : strEndsWith m a with
  | false => rfl
  | true =>
      exfalso
      rcases List.suffix_or_suffix_of_suffix (strEndsWith_iff.mp ha) (strEndsWith_iff.mp hb)
        with hs | hs
      · exact h1 hs
      · exact h2 hs

/-- C6: for every request whose lowercased model name ends with one of
the `-thinking…` suffixes, the override sets `thinking` to the budget
512 / 1024 / 8192 / 24576 / 32768 / 20000 respectively; the thinking
type is `adaptive` — and `output_config.effort` is set to `high` — when
the model also mentions opus or sonnet together with `4-6` or `4.6`, and
`enabled` otherwise.  The source's thinking-type branch reads the
undefined variable `is_opus_4_6`; this theorem is proved against the
spec-intended `is_opus_or_sonnet_4_6` condition (see
`override_thinking_from_model_name`). -/
theorem claim_C6_thinking_override (p : MessagesRequest) :
    (strEndsWith (rustToLowercase p.model) "-thinking-minimal" = true →
      override_thinking_from_model_name p =
        { p with
            thinking := some ⟨if isOpusOrSonnet46 (rustToLowercase p.model) then "adaptive"
              else "enabled", 512⟩
            output_config := if isOpusOrSonnet46 (rustToLowercase p.model) then some ⟨"high"⟩
              else p.output_config }) ∧
    (strEndsWith (rustToLowercase p.model) "-thinking-low" = true →
      override_thinking_from_model_name p =
        { p with
            thinking := some ⟨if isOpusOrSonnet46 (rustToLowercase p.model) then "adaptive"
              else "enabled", 1024⟩
            output_config := if isOpusOrSonnet46 (rustToLowercase p.model) then some ⟨"high"⟩
              else p.output_config }) ∧
    (strEndsWith (rustToLowercase p.model) "-thinking-medium" = true →
      override_thinking_from_model_name p =
        { p with
            thinking := some ⟨if isOpusOrSonnet46 (rustToLowercase p.model) then "adaptive"
              else "enabled", 8192⟩
            output_config := if isOpusOrSonnet46 (rustToLowercase p.model) then some ⟨"high"⟩
              else p.output_config }) ∧
    (strEndsWith (rustToLowercase p.model) "-thinking-high" = true →
      override_thinking_from_model_name p =
        { p with
            thinking := some ⟨if isOpusOrSonnet46 (rustToLowercase p.model) then "adaptive"
              else "enabled", 24576⟩
            output_config := if isOpusOrSonnet46 (rustToLowercase p.model) then some ⟨"high"⟩
              else p.output_config }) ∧
    (strEndsWith (rustToLowercase p.model) "-thinking-xhigh" = true →
      override_thinking_from_model_name p =
        { p with
            thinking := some ⟨if isOpusOrSonnet46 (rustToLowercase p.model) then "adaptive"
              else "enabled", 32768⟩
            output_config := if isOpusOrSonnet46 (rustToLowercase p.model) then some ⟨"high"⟩
              else p.output_config }) ∧
    (strEndsWith (rustToLowercase p.model) "-thinking" = true →
      override_thinking_from_model_name p =
        { p with
            thinking := some ⟨if isOpusOrSonnet46 (rustToLowercase p.model) then "adaptive"
              else "enabled", 20000⟩
            output_config := if isOpusOrSonnet46 (rustToLowercase p.model) then some ⟨"high"⟩
              else p.output_config }) := by
  have hth : ∀ sfx : String, strEndsWith (rustToLowercase p.model) sfx = true →
      ("thinking".data <:+: sfx.data) →
      containsSubstr (rustToLowercase p.model) "thinking" = true := by
    intro sfx hs hinf
    exact containsSubstr_of_infix (hinf.trans (strEndsWith_iff.mp hs).isInfix)
  refine ⟨?_, ?_, ?_, ?_, ?_, ?_⟩
  · intro h
    have hc := hth _ h (by decide)
    simp [override_thinking_from_model_name, hc, h]
  · intro h
    have hc := hth _ h (by decide)
    have n1 := not_strEndsWith_of_incomparable "-thinking-minimal" _ h (by decide) (by decide)
    simp [override_thinking_from_model_name, hc, h, n1]
  · intro h
    have hc := hth _ h (by decide)
    have n1 := not_strEndsWith_of_incomparable "-thinking-minimal" _ h (by decide) (by decide)
    have n2 := not_strEndsWith_of_incomparable "-thinking-low" _ h (by decide) (by decide)
    simp [override_thinking_from_model_name, hc, h, n1, n2]
  · intro h
    have hc := hth _ h (by decide)
    have n1 := not_strEndsWith_of_incomparable "-thinking-minimal" _ h (by decide) (by decide)
    have n2 := not_strEndsWith_of_incomparable "-thinking-low" _ h (by decide) (by decide)
    have n3 := not_strEndsWith_of_incomparable "-thinking-medium" _ h (by decide) (by decide)
    simp [override_thinking_from_model_name, hc, h, n1, n2, n3]
  · intro h
    have hc := hth _ h (by decide)
    have n1 := not_strEndsWith_of_incomparable "-thinking-minimal" _ h (by decide) (by decide)
    have n2 := not_strEndsWith_of_incomparable "-thinking-low" _ h (by decide) (by decide)
    have n3 := not_strEndsWith_of_incomparable "-thinking-medium" _ h (by decide) (by decide)
    have n4 := not_strEndsWith_of_incomparable "-thinking-high" _ h (by decide) (by decide)
    simp [override_thinking_from_model_name, hc, h, n1, n2, n3, n4]
  · intro h
    have hc := hth _ h (by decide)
    have n1 := not_strEndsWith_of_incomparable "-thinking-minimal" _ h (by decide) (by decide)
    have n2 := not_strEndsWith_of_incomparable "-thinking-low" _ h (by decide) (by decide)
    have n3 := not_strEndsWith_of_incomparable "-thinking-medium" _ h (by decide) (by decide)
    have n4 := not_strEndsWith_of_incomparable "-thinking-high" _ h (by decide) (by decide)
    have n5 := not_strEndsWith_of_incomparable "-thinking-xhigh" _ h (by decide) (by decide)
    simp [override_thinking_from_model_name, hc, h, n1, n2, n3, n4, n5]

/-- C6 theorem evaluated at the failing input of the code bug: the model
name `claude-sonnet-4.6-thinking` matches opus/sonnet 4.6, so the
intended behavior is type `adaptive`, budget 20000, effort `high` —
while the source cannot even name its `is_opus_4_6` variable. -/
theorem claim_C6_witness :
    override_thinking_from_model_name ⟨"claude-sonnet-4.6-thinking", none, none⟩ =
      ⟨"claude-sonnet-4.6-thinking", some ⟨"adaptive", 20000⟩, some ⟨"high"⟩⟩ ∧
    override_thinking_from_model_name ⟨"gpt-thinking-low", none, none⟩ =
      ⟨"gpt-thinking-low", some ⟨"enabled", 1024⟩, none⟩ := by
  constructor
  · have h := (claim_C6_thinking_override ⟨"claude-sonnet-4.6-thinking", none, none⟩).2.2.2.2.2
      (by decide)
    rw [h]
    decide
  · have h := (claim_C6_thinking_override ⟨"gpt-thinking-low", none, none⟩).2.1 (by decide)
    rw [h]
    decide

/-! ## Claim C1 -/

/-- The pairing invariant of spec §3: every tool_result (in history user
messages or the current message) has a matching tool_use in some history
assistant message, and every history tool_use has a matching
tool_result. -/
def pairingInvariant (s : ConversationState) : Prop :=
  (∀ tr ∈ stateToolResults s.history s.current_message,
    tr.tool_use_id ∈ s.history.flatMap msgToolUseIds) ∧
  (∀ id ∈ s.history.flatMap msgToolUseIds,
    id ∈ (stateToolResults s.history s.current_message).map (·.tool_use_id))

theorem msgToolUseIds_step2 (U : List String) (m : Message) :
    msgToolUseIds (step2Msg U m) = msgToolUseIds m := by
  cases m <;> rfl

theorem msgToolResults_step2 (U : List String) (m : Message) :
    msgToolResults (step2Msg U m) =
      (msgToolResults m).filter (fun tr => U.contains tr.tool_use_id) := by
  cases m <;> rfl

theorem msgToolResults_step4 (R : List String) (m : Message) :
    msgToolResults (step4Msg R m) = msgToolResults m := by
  cases m with
  | user u => rfl
  | assistant a =>
      obtain ⟨c, tu⟩ := a
      cases tu <;> rfl

theorem msgToolUseIds_step4 (R : List String) (m : Message) :
    msgToolUseIds (step4Msg R m) =
      (msgToolUseIds m).filter (fun id => R.contains id) := by
  cases m with
  | user u => rfl
  | assistant a =>
      obtain ⟨c, tu⟩ := a
      cases tu with
      | none => rfl
      | some tus =>
          have hkept : msgToolUseIds (step4Msg R (.assistant ⟨c, some tus⟩)) =
              (tus.filter (fun tu => R.contains tu.tool_use_id)).map (·.tool_use_id) := by
            by_cases hk : (tus.filter (fun tu => R.contains tu.tool_use_id)).isEmpty = true
            · simp only [step4Msg, msgToolUseIds]
              rw [if_pos hk, List.isEmpty_iff.mp hk]
              rfl
            · simp only [step4Msg, msgToolUseIds]
              rw [if_neg hk]
          rw [hkept]
          rw [show (msgToolUseIds (Message.assistant ⟨c, some tus⟩)) =
            tus.map (·.tool_use_id) from rfl]
          rw [List.filter_map]
          rfl

theorem stateToolResults_step4 (R : List String) (h : List Message)
    (cur : UserInputMessage) :
    stateToolResults (h.map (step4Msg R)) cur = stateToolResults h cur := by
  unfold stateToolResults
  rw [List.flatMap_map]
  have hf : (fun a => msgToolResults (step4Msg R a)) = msgToolResults :=
    funext (fun m => msgToolResults_step4 R m)
  rw [hf]

/-- Core of C1: one run of `repair_tool_pairing_pass` establishes the
pairing invariant on any state whatsoever — in particular, removing
orphan tool_uses in its last step cannot orphan a tool_result it
retained, because every retained tool_result's id is in the retained-id
set `R` that the last step filters by. -/
theorem repair_establishes_pairing (s : ConversationState) :
    pairingInvariant (repair_tool_pairing_pass s).1 := by
  have hstate : (repair_tool_pairing_pass s).1 =
      { s with
          history := (s.history.map (step2Msg (s.history.flatMap msgToolUseIds))).map
            (step4Msg ((stateToolResults
              (s.history.map (step2Msg (s.history.flatMap msgToolUseIds)))
              { s.current_message with user_input_message_context :=
                { s.current_message.user_input_message_context with
                    tool_results :=
                      s.current_message.user_input_message_context.tool_results.filter
                        (fun tr => (s.history.flatMap msgToolUseIds).contains
                          tr.tool_use_id) } }).map (·.tool_use_id)))
          current_message := { s.current_message with user_input_message_context :=
            { s.current_message.user_input_message_context with
                tool_results :=
                  s.current_message.user_input_message_context.tool_results.filter
                    (fun tr => (s.history.flatMap msgToolUseIds).contains
                      tr.tool_use_id) } } } := rfl
  set U := s.history.flatMap msgToolUseIds with hU
  set cur2 := { s.current_message with user_input_message_context :=
    { s.current_message.user_input_message_context with
        tool_results := s.current_message.user_input_message_context.tool_results.filter
          (fun tr => U.contains tr.tool_use_id) } } with hcur2
  set h2 := s.history.map (step2Msg U) with hh2
  set R := (stateToolResults h2 cur2).map (·.tool_use_id) with hR
  rw [hstate]
  have hres4 : stateToolResults (h2.map (step4Msg R)) cur2 = stateToolResults h2 cur2 :=
    stateToolResults_step4 R h2 cur2
  constructor
  · intro tr htr
    simp only [] at htr ⊢
    rw [hres4] at htr
    have htrR : tr.tool_use_id ∈ R := by
      rw [hR]
      exact List.mem_map_of_mem _ htr
    have htrU : tr.tool_use_id ∈ U := by
      unfold stateToolResults at htr
      rcases List.mem_append.mp htr with hh | hc
      · obtain ⟨m2, hm2, htr2⟩ := List.mem_flatMap.mp hh
        rw [hh2] at hm2
        obtain ⟨m, _, rfl⟩ := List.mem_map.mp hm2
        rw [msgToolResults_step2] at htr2
        exact List.elem_iff.mp (List.mem_filter.mp htr2).2
      · exact List.elem_iff.mp (List.mem_filter.mp hc).2
    obtain ⟨m, hm, hid⟩ := List.mem_flatMap.mp htrU
    refine List.mem_flatMap.mpr ⟨step4Msg R (step2Msg U m), ?_, ?_⟩
    · exact List.mem_map_of_mem _ (List.mem_map_of_mem _ hm)
    · rw [msgToolUseIds_step4, msgToolUseIds_step2]
      exact List.mem_filter.mpr ⟨hid, List.elem_iff.mpr htrR⟩
  · intro id hid
    simp only [] at hid ⊢
    obtain ⟨m4, hm4, hidm⟩ := List.mem_flatMap.mp hid
    obtain ⟨m2, _, rfl⟩ := List.mem_map.mp hm4
    rw [msgToolUseIds_step4] at hidm
    have hidR : id ∈ R := List.elem_iff.mp (List.mem_filter.mp hidm).2
    rw [hres4]
    rw [hR] at hidR
    exact hidR

/-- C1: after the full compression pipeline runs (compression enabled),
the pairing invariant holds: every remaining tool_result has a matching
tool_use in history and every remaining tool_use has a matching
tool_result — established by the single repair pass without iterating. -/
theorem claim_C1_pairing_closed (state : ConversationState)
    (config : CompressionConfig) (h : config.enabled = true) :
    pairingInvariant (compress state config).1 := by
  unfold compress
  split
  · next hcond =>
      rw [h] at hcond
      simp at hcond
  · exact repair_establishes_pairing _

/-- Configuration of the C1 witness (no history trimming, thinking
kept). -/
def c1cfg : CompressionConfig :=
  { enabled := true, whitespace_compression := true, thinking_strategy := "keep",
    tool_result_max_chars := 100, tool_result_head_lines := 3, tool_result_tail_lines := 2,
    tool_use_input_max_chars := 50, tool_description_max_chars := 0,
    max_history_turns := 0, max_history_chars := 0,
    image_max_long_edge := 0, image_max_pixels_single := 0, image_max_pixels_multi := 0,
    image_multi_threshold := 0, max_request_body_bytes := 0 }

/-- State of the C1 witness: `t2` is an orphan tool_use and `t9` an
orphan tool_result before compression; `t1` is properly paired. -/
def c1state : ConversationState :=
  { conversation_id := "c1"
    history := [.user ⟨"s", ⟨[], []⟩, []⟩,
                .assistant ⟨"a", some [⟨"t1", "Read", .null⟩, ⟨"t2", "Write", .null⟩]⟩]
    current_message :=
      ⟨"go", ⟨[⟨"t1", [[("text", .str "ok")]]⟩, ⟨"t9", [[("text", .str "orphan")]]⟩], []⟩, []⟩ }

/-- C1 witness: the invariant concretely holds after compressing a state
that begins with both kinds of orphans. -/
theorem claim_C1_witness :
    c1cfg.enabled = true ∧ pairingInvariant (compress c1state c1cfg).1 :=
  ⟨rfl, claim_C1_pairing_closed c1state c1cfg rfl⟩

/-! ## Claim C5 -/

/-- A message carrying no tool payload: a user message with no tool
results, or an assistant message with absent tool_uses. -/
def noToolPayload : Message → Prop
  | .user u => u.user_input_message_context.tool_results = []
  | .assistant a => a.tool_uses = none

theorem toolResultsMsg_id (a b c : Nat) (m : Message) (h : noToolPayload m) :
    (toolResultsMsg a b c m).1 = m := by
  cases m with
  | user u =>
      obtain ⟨cu, ctx, imgs⟩ := u
      obtain ⟨results, tools⟩ := ctx
      simp only [noToolPayload] at h
      subst h
      rfl
  | assistant a => rfl

theorem toolUseMsg_id (mc : Nat) (m : Message) (h : noToolPayload m) :
    (toolUseMsg mc m).1 = m := by
  cases m with
  | user u => rfl
  | assistant a =>
      obtain ⟨c, tu⟩ := a
      simp only [noToolPayload] at h
      subst h
      rfl

theorem step2Msg_id (U : List String) (m : Message) (h : noToolPayload m) :
    step2Msg U m = m := by
  cases m with
  | user u =>
      obtain ⟨cu, ctx, imgs⟩ := u
      obtain ⟨results, tools⟩ := ctx
      simp only [noToolPayload] at h
      subst h
      rfl
  | assistant a => rfl

theorem step4Msg_id (R : List String) (m : Message) (h : noToolPayload m) :
    step4Msg R m = m := by
  cases m with
  | user u => rfl
  | assistant a =>
      obtain ⟨c, tu⟩ := a
      simp only [noToolPayload] at h
      subst h
      rfl

theorem historyTrimByTurns_head2 (n : Nat) (len : Nat) :
    ∀ (l : List Message), l.length ≤ len → ∀ m0 m1 rest, l = m0 :: m1 :: rest →
      ∃ r, (historyTrimByTurns l n).1 = m0 :: m1 :: r := by
  induction len with
  | zero =>
      intro l hlen m0 m1 rest hh
      subst hh
      simp at hlen
  | succ k ih =>
      intro l hlen m0 m1 rest hh
      unfold historyTrimByTurns
      split
      · next hc =>
          have hnew : l.take 2 ++ l.drop 4 = m0 :: m1 :: rest.drop 2 := by
            subst hh; rfl
          have hlen2 : (l.take 2 ++ l.drop 4).length ≤ k := by
            subst hh
            simp only [List.length_append, List.length_take, List.length_drop,
              List.length_cons] at hc hlen ⊢
            omega
          exact ih _ hlen2 m0 m1 (rest.drop 2) hnew
      · exact ⟨rest, by rw [hh]⟩

theorem historyTrimByChars_head2 (n : Nat) (len : Nat) :
    ∀ (l : List Message), l.length ≤ len → ∀ m0 m1 rest, l = m0 :: m1 :: rest →
      ∃ r, (historyTrimByChars l n).1 = m0 :: m1 :: r := by
  induction len with
  | zero =>
      intro l hlen m0 m1 rest hh
      subst hh
      simp at hlen
  | succ k ih =>
      intro l hlen m0 m1 rest hh
      unfold historyTrimByChars
      split
      · exact ⟨rest, by rw [hh]⟩
      · next hc =>
          have hnew : l.take 2 ++ l.drop 4 = m0 :: m1 :: rest.drop 2 := by
            subst hh; rfl
          have hlen2 : (l.take 2 ++ l.drop 4).length ≤ k := by
            subst hh
            push_neg at hc
            simp only [List.length_append, List.length_take, List.length_drop,
              List.length_cons] at hc hlen ⊢
            omega
          exact ih _ hlen2 m0 m1 (rest.drop 2) hnew

theorem compress_history_pass_head2 (st : ConversationState) (a b : Nat)
    {m0 m1 : Message} {rest : List Message} (hh : st.history = m0 :: m1 :: rest) :
    ∃ r, (compress_history_pass st a b).1.history = m0 :: m1 :: r := by
  simp only [compress_history_pass]
  obtain ⟨r1, hr1⟩ : ∃ r,
      (if a > 0 then historyTrimByTurns st.history (2 + a * 2)
        else (st.history, 0, 0)).1 = m0 :: m1 :: r := by
    split
    · exact historyTrimByTurns_head2 (2 + a * 2) st.history.length st.history
        (le_refl _) m0 m1 rest hh
    · exact ⟨rest, hh⟩
  rw [hr1]
  split
  · exact historyTrimByChars_head2 b _ _ (le_refl _) m0 m1 r1 rfl
  · exact ⟨r1, rfl⟩

theorem compress_tool_results_pass_head2 (st : ConversationState) (a b c : Nat)
    {m0 m1 : Message} {rest : List Message} (hh : st.history = m0 :: m1 :: rest)
    (h0 : noToolPayload m0) (h1 : noToolPayload m1) :
    ∃ r, (compress_tool_results_pass st a b c).1.history = m0 :: m1 :: r := by
  refine ⟨(rest.map (toolResultsMsg a b c)).map Prod.fst, ?_⟩
  simp only [compress_tool_results_pass, hh, List.map_cons]
  rw [toolResultsMsg_id a b c m0 h0, toolResultsMsg_id a b c m1 h1]

theorem compress_tool_use_inputs_pass_head2 (st : ConversationState) (mc : Nat)
    {m0 m1 : Message} {rest : List Message} (hh : st.history = m0 :: m1 :: rest)
    (h0 : noToolPayload m0) (h1 : noToolPayload m1) :
    ∃ r, (compress_tool_use_inputs_pass st mc).1.history = m0 :: m1 :: r := by
  refine ⟨(rest.map (toolUseMsg mc)).map Prod.fst, ?_⟩
  simp only [compress_tool_use_inputs_pass, hh, List.map_cons]
  rw [toolUseMsg_id mc m0 h0, toolUseMsg_id mc m1 h1]

theorem repair_head2 (st : ConversationState)
    {m0 m1 : Message} {rest : List Message} (hh : st.history = m0 :: m1 :: rest)
    (h0 : noToolPayload m0) (h1 : noToolPayload m1) :
    ∃ r, (repair_tool_pairing_pass st).1.history = m0 :: m1 :: r := by
  simp only [repair_tool_pairing_pass, hh, List.map_cons]
  rw [step2Msg_id _ m0 h0, step2Msg_id _ m1 h1, step4Msg_id _ m0 h0, step4Msg_id _ m1 h1]
  exact ⟨_, rfl⟩

/-- C5 (amended): history items 0 and 1 are never removed by the
pipeline — whenever the text passes leave them alone (whitespace
compression off, thinking strategy `keep`) and they carry no tool
payloads, they are bit-identical before and after `compress` under every
remaining configuration (including arbitrary history trimming and the
pairing repair).  With whitespace compression or a non-`keep` thinking
strategy their *content* can be rewritten (see the counterexample),
though their positions are still preserved. -/
theorem claim_C5_system_pair (s : ConversationState) (cfg : CompressionConfig)
    (hw : cfg.whitespace_compression = false)
    (ht : cfg.thinking_strategy = "keep")
    (m0 m1 : Message) (rest : List Message)
    (hh : s.history = m0 :: m1 :: rest)
    (h0 : noToolPayload m0) (h1 : noToolPayload m1) :
    (compress s cfg).1.history.take 2 = s.history.take 2 := by
  rw [hh]
  show (compress s cfg).1.history.take 2 = [m0, m1]
  unfold compress
  split
  · next hcond =>
      show s.history.take 2 = [m0, m1]
      rw [hh]
      rfl
  · simp only [hw, ht, Bool.false_eq_true, if_false, ne_eq, not_true_eq_false,
      reduceIte]
    obtain ⟨r3, hr3⟩ : ∃ r,
        (if cfg.tool_result_max_chars > 0 then
          compress_tool_results_pass s cfg.tool_result_max_chars
            cfg.tool_result_head_lines cfg.tool_result_tail_lines
        else (s, 0)).1.history = m0 :: m1 :: r := by
      split
      · exact compress_tool_results_pass_head2 s _ _ _ hh h0 h1
      · exact ⟨rest, hh⟩
    obtain ⟨r4, hr4⟩ : ∃ r,
        (if cfg.tool_use_input_max_chars > 0 then
          compress_tool_use_inputs_pass
            (if cfg.tool_result_max_chars > 0 then
              compress_tool_results_pass s cfg.tool_result_max_chars
                cfg.tool_result_head_lines cfg.tool_result_tail_lines
            else (s, 0)).1 cfg.tool_use_input_max_chars
        else ((if cfg.tool_result_max_chars > 0 then
          compress_tool_results_pass s cfg.tool_result_max_chars
            cfg.tool_result_head_lines cfg.tool_result_tail_lines
        else (s, 0)).1, 0)).1.history = m0 :: m1 :: r := by
      split
      · exact compress_tool_use_inputs_pass_head2 _ _ hr3 h0 h1
      · exact ⟨r3, hr3⟩
    obtain ⟨r5, hr5⟩ : ∃ r,
        (if cfg.max_history_turns > 0 ∨ cfg.max_history_chars > 0 then
          compress_history_pass
            (if cfg.tool_use_input_max_chars > 0 then
              compress_tool_use_inputs_pass
                (if cfg.tool_result_max_chars > 0 then
                  compress_tool_results_pass s cfg.tool_result_max_chars
                    cfg.tool_result_head_lines cfg.tool_result_tail_lines
                else (s, 0)).1 cfg.tool_use_input_max_chars
            else ((if cfg.tool_result_max_chars > 0 then
              compress_tool_results_pass s cfg.tool_result_max_chars
                cfg.tool_result_head_lines cfg.tool_result_tail_lines
            else (s, 0)).1, 0)).1 cfg.max_history_turns cfg.max_history_chars
        else ((if cfg.tool_use_input_max_chars > 0 then
          compress_tool_use_inputs_pass
            (if cfg.tool_result_max_chars > 0 then
              compress_tool_results_pass s cfg.tool_result_max_chars
                cfg.tool_result_head_lines cfg.tool_result_tail_lines
            else (s, 0)).1 cfg.tool_use_input_max_chars
        else ((if cfg.tool_result_max_chars > 0 then
          compress_tool_results_pass s cfg.tool_result_max_chars
            cfg.tool_result_head_lines cfg.tool_result_tail_lines
        else (s, 0)).1, 0)).1, 0, 0)).1.history = m0 :: m1 :: r := by
      split
      · exact compress_history_pass_head2 _ _ _ hr4
      · exact ⟨r4, hr4⟩
    obtain ⟨r6, hr6⟩ := repair_head2 _ hr5 h0 h1
    simp only [hr6]
    rfl

/-- State of the C5 counterexample: history item 0 carries a trailing
space. -/
def c5state : ConversationState :=
  ⟨"c5", [.user ⟨"a ", ⟨[], []⟩, []⟩, .assistant ⟨"b", none⟩], ⟨"c", ⟨[], []⟩, []⟩⟩

/-- Configuration of the C5 counterexample: enabled with whitespace
compression on (its default), everything else off. -/
def c5cfg : CompressionConfig :=
  { enabled := true, whitespace_compression := true, thinking_strategy := "keep",
    tool_result_max_chars := 0, tool_result_head_lines := 80, tool_result_tail_lines := 40,
    tool_use_input_max_chars := 0, tool_description_max_chars := 0,
    max_history_turns := 0, max_history_chars := 0,
    image_max_long_edge := 0, image_max_pixels_single := 0, image_max_pixels_multi := 0,
    image_multi_threshold := 0, max_request_body_bytes := 0 }

/-- C5 counterexample: the whitespace pass rewrites history item 0's
content (`"a "` becomes `"a"`), so items 0 and 1 are not equal before
and after the pipeline for every configuration. -/
theorem claim_C5_counterexample :
    (compress c5state c5cfg).1.history.take 2 ≠ c5state.history.take 2 := by
  intro h
  exact absurd
    (congrArg (fun l => match l with | Message.user u :: _ => u.content | _ => "") h)
    (by decide)

/-- State of the C5 witness: a payload-free system pair followed by one
turn. -/
def c5wstate : ConversationState :=
  ⟨"w5", [.user ⟨"sys", ⟨[], []⟩, []⟩, .assistant ⟨"ok", none⟩,
          .user ⟨"u1", ⟨[], []⟩, []⟩, .assistant ⟨"a1", none⟩],
    ⟨"cur", ⟨[], []⟩, []⟩⟩

/-- Configuration of the C5 witness: text passes off, trimming active. -/
def c5wcfg : CompressionConfig :=
  { enabled := true, whitespace_compression := false, thinking_strategy := "keep",
    tool_result_max_chars := 100, tool_result_head_lines := 3, tool_result_tail_lines := 2,
    tool_use_input_max_chars := 100, tool_description_max_chars := 0,
    max_history_turns := 1, max_history_chars := 10,
    image_max_long_edge := 0, image_max_pixels_single := 0, image_max_pixels_multi := 0,
    image_multi_threshold := 0, max_request_body_bytes := 0 }

/-- C5 witness: the amended preservation applied to a concrete state and
configuration (with history trimming active). -/
theorem claim_C5_witness :
    c5wcfg.whitespace_compression = false ∧ c5wcfg.thinking_strategy = "keep" ∧
    (compress c5wstate c5wcfg).1.history.take 2 = c5wstate.history.take 2 :=
  ⟨rfl, rfl, claim_C5_system_pair c5wstate c5wcfg rfl rfl _ _ _ rfl rfl rfl⟩

/-! ## Claim C10 -/

theorem utf8Len_cons (c : Char) (l : List Char) :
    utf8Len (c :: l) = c.utf8Size + utf8Len l := rfl

theorem take_pfx_byteTake :
    ∀ (k : Nat) (l : List Char) (n : Nat), utf8Len (l.take k) ≤ n →
      l.take k <+: byteTake l n := by
  intro k
  induction k with
  | zero => intro l n _; simp
  | succ j ih =>
      intro l n h
      cases l with
      | nil => simp
      | cons c cs =>
          simp only [List.take_succ_cons, utf8Len_cons] at h ⊢
          have hc : 1 ≤ c.utf8Size := Char.utf8Size_pos c
          have hcn : c.utf8Size ≤ n := by
            have := Nat.le_add_right c.utf8Size (utf8Len (cs.take j))
            omega
          unfold byteTake
          rw [if_pos hcn]
          rw [List.cons_prefix_cons]
          refine ⟨rfl, ih cs (n - c.utf8Size) ?_⟩
          omega

theorem lastBoundary_ge_off :
    ∀ (l : List Char) (off target : Nat), lastBoundary l off target ≠ 0 →
      off ≤ lastBoundary l off target := by
  intro l
  induction l with
  | nil => intro off target h; simp [lastBoundary] at h
  | cons c cs ih =>
      intro off target h
      unfold lastBoundary at h ⊢
      split_ifs at h ⊢ with h1
      · dsimp only at h ⊢
        split
        · have := Char.utf8Size_pos c
          omega
        · next hd =>
            have := ih (off + c.utf8Size) target hd
            omega
      · exact absurd rfl h

theorem lastBoundary_ge :
    ∀ (l : List Char) (off target j : Nat), j < l.length →
      off + utf8Len (l.take j) ≤ target →
      off + utf8Len (l.take (j + 1)) ≤ lastBoundary l off target := by
  intro l
  induction l with
  | nil => intro off target j hj; simp at hj
  | cons c cs ih =>
      intro off target j hj hoff
      cases j with
      | zero =>
          simp only [List.take_zero, utf8Len, List.foldr, Nat.add_zero] at hoff
          simp only [List.take_succ_cons, List.take_zero, utf8Len_cons]
          unfold lastBoundary
          rw [if_pos hoff]
          dsimp only
          split
          · have h0 : utf8Len ([] : List Char) = 0 := rfl
            omega
          · next hd =>
              have := lastBoundary_ge_off cs (off + c.utf8Size) target hd
              have h0 : utf8Len ([] : List Char) = 0 := rfl
              omega
      | succ j2 =>
          simp only [List.take_succ_cons, utf8Len_cons] at hoff ⊢
          have hj2 : j2 < cs.length := by simpa using hj
          have hoff2 : (off + c.utf8Size) + utf8Len (cs.take j2) ≤ target := by omega
          have hin := ih (off + c.utf8Size) target j2 hj2 hoff2
          have hc : 1 ≤ c.utf8Size := Char.utf8Size_pos c
          have hoffle : off ≤ target := by omega
          unfold lastBoundary
          rw [if_pos hoffle]
          dsimp only
          split
          · next hd => rw [hd] at hin; omega
          · omega

theorem truncateDescription_keeps50 (desc : String) (target_bytes : Nat) :
    desc.data.take 50 <+: (truncateDescription desc target_bytes).data := by
  simp only [truncateDescription]
  split
  · next hgt =>
      show desc.data.take 50 <+: byteTake desc.data _
      rcases Nat.lt_or_ge 50 desc.data.length with h50 | h50
      · refine take_pfx_byteTake 50 desc.data _ ?_
        have hlb := lastBoundary_ge desc.data 0
          (max target_bytes (utf8Len (desc.data.take MIN_DESCRIPTION_CHARS))) 50
          h50 (by simp [MIN_DESCRIPTION_CHARS])
        have hmono : utf8Len (desc.data.take 50) ≤ utf8Len (desc.data.take (50 + 1)) := by
          refine utf8Len_le_of_prefix ?_
          rw [show desc.data.take 50 = (desc.data.take (50 + 1)).take 50 by
            rw [List.take_take]; norm_num]
          exact List.take_prefix _ _
        simp only [MIN_DESCRIPTION_CHARS] at hlb ⊢
        omega
      · exfalso
        rw [show desc.data.take MIN_DESCRIPTION_CHARS = desc.data from
          List.take_of_length_le (by simpa [MIN_DESCRIPTION_CHARS] using h50),
          utf8ByteSize_eq] at hgt
        have := le_max_right target_bytes (utf8Len desc.data)
        omega
  · exact List.take_prefix 50 desc.data

theorem zip_self_mem {α : Type} {l : List α} {p : α × α} (h : p ∈ l.zip l) :
    p.1 = p.2 := by
  induction l with
  | nil => simp at h
  | cons a rest ih =>
      rw [List.zip_cons_cons, List.mem_cons] at h
      rcases h with h | h
      · rw [h]
      · exact ih h

theorem zip_map_self {α β : Type} (f : α → β) (l : List α) :
    l.zip (l.map f) = l.map (fun a => (a, f a)) := by
  induction l with
  | nil => rfl
  | cons a rest ih => simp [ih]

/-- C10: `compress_tools_if_needed` returns the tool list unchanged when
the estimated total serialized size is within the 20480-byte threshold;
the output always has one entry per input tool, and every output tool's
description retains at least the first 50 characters of the
corresponding input description (or the whole description when it is
shorter). -/
theorem claim_C10_tool_compression (tools : List Tool) :
    (estimate_tools_size tools ≤ TOOL_SIZE_THRESHOLD →
      compress_tools_if_needed tools = tools) ∧
    (compress_tools_if_needed tools).length = tools.length ∧
    (∀ p ∈ tools.zip (compress_tools_if_needed tools),
      p.1.tool_specification.description.data.take 50 <+:
        p.2.tool_specification.description.data) := by
  refine ⟨fun h => ?_, ?_, ?_⟩
  · simp only [compress_tools_if_needed]
    rw [if_pos h]
  · simp only [compress_tools_if_needed]
    split
    · rfl
    · split
      · simp
      · simp
  · intro p hp
    simp only [compress_tools_if_needed] at hp
    split at hp
    · have := zip_self_mem hp
      rw [this]
      exact List.take_prefix _ _
    · split at hp
      · rw [zip_map_self] at hp
        obtain ⟨t, _, rfl⟩ := List.mem_map.mp hp
        exact List.take_prefix _ _
      · rw [List.map_map, zip_map_self] at hp
        obtain ⟨t, _, rfl⟩ := List.mem_map.mp hp
        exact truncateDescription_keeps50 _ _

/-- Small tool list used by the C10 witness. -/
def c10tools : List Tool :=
  [⟨⟨"test", "A short description", .obj [("type", .str "object")]⟩⟩]

/-- C10 witness: the under-threshold branch and the description
retention instantiated concretely. -/
theorem claim_C10_witness :
    estimate_tools_size c10tools ≤ TOOL_SIZE_THRESHOLD ∧
    compress_tools_if_needed c10tools = c10tools ∧
    (compress_tools_if_needed c10tools).length = c10tools.length :=
  ⟨by decide, (claim_C10_tool_compression c10tools).1 (by decide),
   (claim_C10_tool_compression c10tools).2.1⟩
